import Mathlib

/-!
# gaspeek: a verification development

A shallow embedding of `internal/tmux/tmux.go` and `cmd/root.go`.

Modelling conventions.

* Text that the program exchanges with tmux and pgrep is modelled as `Str = List Char`,
  the sequence of its Unicode code points (valid UTF-8). The arguments of `MatchPattern`,
  whose behaviour depends on the bytes of its arguments, are byte strings `Bytes`, which
  may hold invalid UTF-8; `utf8` and `Runes` relate the two.
* Go's `int` is the 64-bit signed integer; values are `Int`, and the only place where the
  width matters (`fmt.Sscanf` rejecting a number outside the range) checks it explicitly.
* The outside world (the `tmux` and `pgrep` binaries, the `TMUX_PANE` variable) is an
  explicit environment `Env` that is passed to every function that shells out.
* The Go standard library functions that the program calls (`strings.TrimSpace`,
  `strings.Split`, `strings.SplitN`, `strings.Fields`, `strings.ReplaceAll`, `strings.Join`,
  `fmt.Sscanf` and `fmt.Sprintf` with `%d`, `regexp.QuoteMeta`, `regexp.Compile`,
  `Regexp.MatchString`, `utf8.DecodeRuneInString`) are modelled from their documented
  behaviour. The size limit of the `regexp` compiler, which depends on the Go release, is
  a parameter (`RegexpLimits`); memory limits are not modelled.
* Loops are embedded as recursive functions or folds over the ranged slice, one step
  function per loop body; `runPeek` is split into its session resolution and its two modes.
-/

namespace Gaspeek

/-- A Go string holding valid UTF-8, as the sequence of its code points. -/
abbrev Str := List Char

/-! ## The `strings` package -/

/-- Go `unicode.IsSpace`: the Latin-1 spaces and the `White_Space` code points. -/
def isSpace (c : Char) : Bool :=
  let n := c.toNat
  (0x09 ≤ n && n ≤ 0x0d) || n == 0x20 || n == 0x85 || n == 0xa0 || n == 0x1680 ||
  (0x2000 ≤ n && n ≤ 0x200a) || n == 0x2028 || n == 0x2029 || n == 0x202f ||
  n == 0x205f || n == 0x3000

/-- Go `strings.TrimSpace`: all leading and trailing white space removed. -/
def TrimSpace (s : Str) : Str :=
  (s.dropWhile isSpace).rdropWhile isSpace

/-- Go `strings.Cut` for a one-character separator: the text before and after the first
occurrence of `sep`, or `none` when `sep` does not occur. -/
def Cut (sep : Char) : Str → Option (Str × Str)
  | [] => none
  | c :: cs =>
    if c = sep then some ([], cs)
    else match Cut sep cs with
      | none => none
      | some (a, b) => some (c :: a, b)

/-- Go `strings.Split` for a one-character separator: the pieces between the occurrences
of `sep`; the result always has at least one piece. -/
def Split (sep : Char) : Str → List Str
  | [] => [[]]
  | c :: cs =>
    if c = sep then [] :: Split sep cs
    else match Split sep cs with
      | [] => [[c]]
      | h :: t => (c :: h) :: t

/-- Go `strings.SplitN` for a one-character separator and a count `n ≥ 0`: at most `n`
pieces, the last one being the unsplit remainder. -/
def SplitN (sep : Char) : Nat → Str → List Str
  | 0, _ => []
  | 1, s => [s]
  | n + 2, s =>
    match Cut sep s with
    | none => [s]
    | some (a, b) => a :: SplitN sep (n + 1) b

/-- Go `strings.Fields`: the maximal runs of non-space characters, in order. -/
def Fields : Str → List Str
  | [] => []
  | c :: cs =>
    if isSpace c then Fields cs
    else match cs with
      | [] => [[c]]
      | d :: _ =>
        if isSpace d then [c] :: Fields cs
        else match Fields cs with
          | [] => [[c]]
          | h :: t => (c :: h) :: t

/-- Go `strings.Join`. -/
def Join (parts : List Str) (sep : Str) : Str :=
  match parts with
  | [] => []
  | [p] => p
  | p :: q :: rest => p ++ sep ++ Join (q :: rest) sep

/-! ## Byte strings and the `unicode/utf8` package -/

/-- A Go string as the sequence of its bytes, each a number below 256 (a larger number is
never produced by the model and is read as an invalid byte). -/
abbrev Bytes := List Nat

/-- Go `utf8.AppendRune`: the UTF-8 encoding of a code point. -/
def encodeRune (c : Char) : Bytes :=
  let n := c.toNat
  if n < 0x80 then [n]
  else if n < 0x800 then [0xC0 + n / 64, 0x80 + n % 64]
  else if n < 0x10000 then [0xE0 + n / 4096, 0x80 + n / 64 % 64, 0x80 + n % 64]
  else [0xF0 + n / 262144, 0x80 + n / 4096 % 64, 0x80 + n / 64 % 64, 0x80 + n % 64]

/-- The bytes of a text: the Go string that holds the UTF-8 encoding of the code points. -/
def utf8 (s : Str) : Bytes := s.flatMap encodeRune

/-- Go `utf8.RuneError`, the code point U+FFFD. -/
def RuneError : Char := Char.ofNat 0xFFFD

/-- Go `utf8.DecodeRuneInString`: the first code point of the string and its width in
bytes; an invalid or truncated encoding gives `(RuneError, 1)`, the empty string gives
`(RuneError, 0)`. The second byte must lie in the range that excludes over-long
encodings, surrogates and values above U+10FFFF. -/
def decodeRune : Bytes → Char × Nat
  | [] => (RuneError, 0)
  | b0 :: rest =>
    if b0 < 0x80 then (Char.ofNat b0, 1)
    else if 0xC2 ≤ b0 ∧ b0 ≤ 0xDF then
      match rest with
      | b1 :: _ =>
        if 0x80 ≤ b1 ∧ b1 ≤ 0xBF then (Char.ofNat ((b0 - 0xC0) * 64 + (b1 - 0x80)), 2)
        else (RuneError, 1)
      | _ => (RuneError, 1)
    else if 0xE0 ≤ b0 ∧ b0 ≤ 0xEF then
      match rest with
      | b1 :: b2 :: _ =>
        if (if b0 = 0xE0 then 0xA0 else 0x80) ≤ b1 ∧ b1 ≤ (if b0 = 0xED then 0x9F else 0xBF) ∧
            0x80 ≤ b2 ∧ b2 ≤ 0xBF then
          (Char.ofNat ((b0 - 0xE0) * 4096 + (b1 - 0x80) * 64 + (b2 - 0x80)), 3)
        else (RuneError, 1)
      | _ => (RuneError, 1)
    else if 0xF0 ≤ b0 ∧ b0 ≤ 0xF4 then
      match rest with
      | b1 :: b2 :: b3 :: _ =>
        if (if b0 = 0xF0 then 0x90 else 0x80) ≤ b1 ∧ b1 ≤ (if b0 = 0xF4 then 0x8F else 0xBF) ∧
            0x80 ≤ b2 ∧ b2 ≤ 0xBF ∧ 0x80 ≤ b3 ∧ b3 ≤ 0xBF then
          (Char.ofNat ((b0 - 0xF0) * 262144 + (b1 - 0x80) * 4096 + (b2 - 0x80) * 64 +
            (b3 - 0x80)), 4)
        else (RuneError, 1)
      | _ => (RuneError, 1)
    else (RuneError, 1)

/-- The loop that reads a Go string rune by rune the way the `regexp` matcher does:
following `utf8.DecodeRuneInString`, each byte of an invalid encoding is read as
`RuneError`. `skip` counts the bytes of the last rune that are still to be passed over. -/
def runesFrom : Nat → Bytes → Str
  | _, [] => []
  | skip + 1, _ :: bs => runesFrom skip bs
  | 0, b :: bs => (decodeRune (b :: bs)).1 :: runesFrom ((decodeRune (b :: bs)).2 - 1) bs

/-- The code points that the `regexp` matcher reads from a Go string. -/
def Runes (s : Bytes) : Str := runesFrom 0 s

/-- The loop that reads an expression rune by rune the way the `regexp` parser does
(`nextRune`): `none` when a rune is `RuneError` of width 1, which the parser reports as
invalid UTF-8. -/
def nextRunes : Nat → Bytes → Option Str
  | _, [] => some []
  | skip + 1, _ :: bs => nextRunes skip bs
  | 0, b :: bs =>
    if (decodeRune (b :: bs)).1 = RuneError ∧ (decodeRune (b :: bs)).2 = 1 then none
    else
      match nextRunes ((decodeRune (b :: bs)).2 - 1) bs with
      | none => none
      | some rs => some ((decodeRune (b :: bs)).1 :: rs)

/-- The scanning loop of Go `strings.ReplaceAll` for a non-empty `old`: `skip` counts the
bytes of a replaced occurrence that are still to be passed over. -/
def replaceFrom (old new : Bytes) : Nat → Bytes → Bytes
  | _, [] => []
  | skip + 1, _ :: cs => replaceFrom old new skip cs
  | 0, c :: cs =>
    if old.isPrefixOf (c :: cs) then new ++ replaceFrom old new (old.length - 1) cs
    else c :: replaceFrom old new 0 cs

/-- Go `strings.ReplaceAll` for a non-empty `old`: every non-overlapping occurrence of
`old`, found from the left, replaced by `new`. -/
def ReplaceAll (s old new : Bytes) : Bytes := replaceFrom old new 0 s

/-! ## The `fmt` package, verb `%d` -/

/-- The digit loop of `fmt` (`fmtInteger`): the digits of `u` are produced from the least
significant one and put in front of `acc`; `fuel` bounds the number of iterations. -/
def formatNatLoop : Nat → Nat → Str → Str
  | 0, _, acc => acc
  | fuel + 1, u, acc =>
    if u < 10 then Nat.digitChar u :: acc
    else formatNatLoop fuel (u / 10) (Nat.digitChar (u % 10) :: acc)

/-- The decimal digits of a natural number, most significant first (`"0"` for zero). -/
def formatNat (n : Nat) : Str := formatNatLoop (n + 1) n []

/-- Go `fmt.Sprintf("%d", i)`. -/
def formatInt (i : Int) : Str :=
  if i < 0 then '-' :: formatNat i.natAbs else formatNat i.natAbs

/-- Whether a character is an ASCII decimal digit. -/
def isDigit (c : Char) : Bool := 0x30 ≤ c.toNat && c.toNat ≤ 0x39

/-- The value of a run of decimal digits, read from the left with `acc` already read. -/
def digitsValue (acc : Nat) : Str → Nat
  | [] => acc
  | c :: cs => digitsValue (acc * 10 + (c.toNat - 0x30)) cs

/-- The white space skipping of `fmt.Sscanf` (`ss.SkipSpace` with newlines significant):
`none` when a newline is met, which the scanner reports as an error. -/
def skipSpace : Str → Option Str
  | [] => some []
  | c :: cs =>
    if c = '\n' then none
    else if isSpace c then skipSpace cs
    else some (c :: cs)

/-- The number scan of `ss.scanInt` for `%d` after the sign: at least one decimal digit,
and the signed value must fit the 64-bit `int`. -/
def scanNumber (neg : Bool) (rest : Str) : Option Int :=
  let tok := rest.takeWhile isDigit
  if tok = [] then none
  else
    let v : Int := if neg then - (digitsValue 0 tok : Int) else (digitsValue 0 tok : Int)
    if - (2 : Int) ^ 63 ≤ v ∧ v < (2 : Int) ^ 63 then some v else none

/-- The token scan of `ss.scanInt` for `%d` after the white space: an optional sign, then
the number. -/
def scanInt : Str → Option Int
  | [] => none
  | c :: cs =>
    if c = '-' then scanNumber true cs
    else if c = '+' then scanNumber false cs
    else scanNumber false (c :: cs)

/-- Go `fmt.Sscanf(s, "%d", &idx)` on a variable that holds `0`: the value left in `idx`.
The returned error is discarded by every caller, so a failed scan leaves `0`. -/
def SscanfInt (s : Str) : Int :=
  match skipSpace s with
  | none => 0
  | some rest => (scanInt rest).getD 0

/-! ## The `regexp` package

Only the part of the syntax that the program can hand to the compiler is modelled: literal
characters, escaped punctuation, `.`, `\d`, the anchors `^` and `$`, and the operators
`*`, `+`, `?` after a single-character item. Flags are those of `regexp.Compile`: `^` and
`$` match at the ends of the text only and `.` does not match a newline. -/

/-- The bytes that `regexp.QuoteMeta` escapes (its table `specialBytes`). -/
def specialBytes : Bytes := utf8 "\\.+*?()|[]{}^$".toList

/-- Go `regexp.QuoteMeta`: a backslash put before every special byte. -/
def QuoteMeta (s : Bytes) : Bytes :=
  s.flatMap (fun b => if specialBytes.elem b then [0x5C, b] else [b])

/-- What a single-character item of a regular expression accepts. -/
inductive CharClass where
  | lit (c : Char)
  | anyNotNL
  | digit
  deriving DecidableEq

/-- Whether the class accepts the character. -/
def CharClass.accepts : CharClass → Char → Bool
  | .lit c, x => x == c
  | .anyNotNL, x => x != '\n'
  | .digit, x => isDigit x

/-- The items of a compiled regular expression, matched in sequence. -/
inductive Inst where
  | beginText
  | endText
  | one (k : CharClass)
  | star (k : CharClass)
  | plus (k : CharClass)
  | quest (k : CharClass)
  deriving DecidableEq

/-- The outcome of compiling an expression: a program, one of the errors reported by Go
(a syntax error, invalid UTF-8, an expression over the size limit), or syntax that Go
accepts or rejects but this model does not cover. -/
inductive Compiled where
  | prog (p : List Inst)
  | syntaxError
  | invalidUTF8
  | tooLarge
  | notModelled
  deriving DecidableEq

/-- ASCII letters and digits (`isalnum` of `regexp/syntax`). -/
def isAlnum (c : Char) : Bool :=
  let n := c.toNat
  (0x30 ≤ n && n ≤ 0x39) || (0x41 ≤ n && n ≤ 0x5a) || (0x61 ≤ n && n ≤ 0x7a)

/-- The repetition of a class by one of the operators `*`, `+`, `?`. -/
def repeatOp (c : Char) (k : CharClass) : Inst :=
  if c = '*' then .star k else if c = '+' then .plus k else .quest k

/-- The parser loop: `stk` is the stack of items parsed so far, the last one on top, and
`esc` tells that the previous character was an unconsumed backslash. -/
def parseFrom (stk : List Inst) (esc : Bool) : Str → Compiled
  | [] => if esc then .syntaxError else .prog stk.reverse
  | c :: rest =>
    if esc then
      if c = 'd' then parseFrom (.one .digit :: stk) false rest
      else if c.toNat < 0x80 && !isAlnum c then parseFrom (.one (.lit c) :: stk) false rest
      else .notModelled
    else if c = '\\' then parseFrom stk true rest
    else if c = '^' then parseFrom (.beginText :: stk) false rest
    else if c = '$' then parseFrom (.endText :: stk) false rest
    else if c = '.' then parseFrom (.one .anyNotNL :: stk) false rest
    else if c = '*' ∨ c = '+' ∨ c = '?' then
      match stk with
      | [] => .syntaxError
      | .one k :: stk' => parseFrom (repeatOp c k :: stk') false rest
      | .beginText :: _ => .notModelled
      | .endText :: _ => .notModelled
      | _ :: _ => if c = '?' then .notModelled else .syntaxError
    else if "()|[]{}".toList.elem c then .notModelled
    else parseFrom (.one (.lit c) :: stk) false rest

/-- The parser of `regexp/syntax` on the code points of an expression. -/
def parseRegexp (expr : Str) : Compiled := parseFrom [] false expr

/-- The size check of the `regexp` compiler: whether it rejects an expression as too
large (`ErrLarge`). The bound is internal to the `regexp/syntax` package and differs
between Go releases, so the check is a parameter of the model. -/
structure RegexpLimits where
  tooLarge : Bytes → Bool

/-- Go `regexp.Compile`: the expression is rejected when it is over the size limit or
holds invalid UTF-8, and is parsed otherwise. -/
def Compile (lim : RegexpLimits) (expr : Bytes) : Compiled :=
  if lim.tooLarge expr then .tooLarge
  else
    match nextRunes 0 expr with
    | none => .invalidUTF8
    | some rs => parseRegexp rs

/-- The loop of a starred class: the continuation is tried after zero or more accepted
characters. `atStart` tells whether the position is the beginning of the text. -/
def matchStar (k : CharClass) (cont : Bool → Str → Bool) : Bool → Str → Bool
  | atStart, [] => cont atStart []
  | atStart, x :: xs => cont atStart (x :: xs) || (k.accepts x && matchStar k cont false xs)

/-- Whether the program matches a prefix of the text at the current position. -/
def matchHere : List Inst → Bool → Str → Bool
  | [], _, _ => true
  | .beginText :: is, atStart, s => atStart && matchHere is atStart s
  | .endText :: is, atStart, s => s.isEmpty && matchHere is atStart s
  | .one k :: is, _, s =>
    match s with
    | [] => false
    | x :: xs => k.accepts x && matchHere is false xs
  | .star k :: is, atStart, s => matchStar k (matchHere is) atStart s
  | .plus k :: is, _, s =>
    match s with
    | [] => false
    | x :: xs => k.accepts x && matchStar k (matchHere is) false xs
  | .quest k :: is, atStart, s =>
    matchHere is atStart s ||
      match s with
      | [] => false
      | x :: xs => k.accepts x && matchHere is false xs

/-- The unanchored search: the program is tried at every position of the text. -/
def searchFrom (re : List Inst) : Bool → Str → Bool
  | atStart, [] => matchHere re atStart []
  | atStart, x :: xs => matchHere re atStart (x :: xs) || searchFrom re false xs

/-- Go `Regexp.MatchString`: whether the text contains a match of the expression. -/
def MatchString (re : List Inst) (s : Str) : Bool := searchFrom re true s

/-! ## The outside world -/

/-- The outcome of `exec.Command(name, args...).Output()`: the standard output, a non-zero
exit with its standard error, or any other failure with its message. -/
inductive ExecResult where
  | ok (stdout : Str)
  | exitError (stderr : Str)
  | failed (msg : Str)
  deriving DecidableEq

/-- The environment of one invocation: the value of `TMUX_PANE` and the behaviour of the
external binaries. -/
structure Env where
  tmuxPane : Str
  exec : Str → List Str → ExecResult

/-! ## `internal/tmux/tmux.go` -/

/-- Window represents a tmux window with its metadata. -/
structure Window where
  Session : Str
  Index : Int
  Name : Str
  PaneID : Str
  Command : Str
  deriving DecidableEq

/-- The expression of `versionPattern`. -/
def versionExpr : Str := "^\\d+\\.\\d+\\.\\d+$".toList

/-- The variable `versionPattern`, `regexp.MustCompile` of `versionExpr`: the call panics
at start-up unless the expression compiles, so in every run of the program the variable
holds the parse of the expression (19 ASCII characters). -/
def versionPattern : List Inst :=
  match parseRegexp versionExpr with
  | .prog p => p
  | _ => []

/-- The variable `supportedShells`. -/
def supportedShells : List Str :=
  ["bash".toList, "zsh".toList, "sh".toList, "fish".toList, "tcsh".toList, "ksh".toList]

/-- The function `run`: executes a tmux command and returns stdout. -/
def run (env : Env) (args : List Str) : Except Str Str :=
  match env.exec "tmux".toList args with
  | .ok out => .ok out
  | .exitError stderr =>
    .error ("tmux ".toList ++ args.headD [] ++ ": ".toList ++ TrimSpace stderr)
  | .failed msg => .error msg

/-- The body of the loop of `ListWindows` for one line. -/
def listWindowsStep (session : Str) (windows : List Window) (line : Str) : List Window :=
  if line = [] then windows
  else
    let parts := SplitN '|' 4 line
    if parts.length < 4 then windows
    else
      let idx := SscanfInt (parts.getD 0 [])
      windows ++ [{ Session := session, Index := idx, Name := parts.getD 1 [],
                    PaneID := parts.getD 2 [], Command := parts.getD 3 [] }]

/-- The arguments of the tmux call of `ListWindows`. -/
def listWindowsArgs (session : Str) : List Str :=
  let format := "#{window_index}|#{window_name}|#{pane_id}|#{pane_current_command}".toList
  ["list-windows".toList, "-t".toList, session, "-F".toList, format]

/-- ListWindows returns all windows in the specified session with their metadata. -/
def ListWindows (env : Env) (session : Str) : Except Str (List Window) :=
  match run env (listWindowsArgs session) with
  | .error err => .error err
  | .ok out => .ok ((Split '\n' (TrimSpace out)).foldl (listWindowsStep session) [])

/-- The arguments of the tmux call of `GetCurrentContext`. -/
def displayMessageArgs (paneID : Str) : List Str :=
  ["display-message".toList, "-p".toList, "-t".toList, paneID,
    "#{session_name}|#{window_index}".toList]

/-- GetCurrentContext returns the current session name, window index and pane id. -/
def GetCurrentContext (env : Env) : Except Str (Str × Int × Str) :=
  let paneID := env.tmuxPane
  if paneID = [] then .error "not running inside tmux (TMUX_PANE not set)".toList
  else
    match run env (displayMessageArgs paneID) with
    | .error err => .error err
    | .ok out =>
      let parts := SplitN '|' 2 (TrimSpace out)
      if parts.length < 2 then .error ("unexpected tmux output: ".toList ++ out)
      else .ok (parts.getD 0 [], SscanfInt (parts.getD 1 []), paneID)

/-- IsInsideTmux returns true if running inside a tmux session. -/
def IsInsideTmux (env : Env) : Bool := env.tmuxPane != []

/-- The arguments of the tmux call of `CaptureWindow`. -/
def captureArgs (target : Str) (lines : Int) : List Str :=
  ["capture-pane".toList, "-p".toList, "-t".toList, target, "-S".toList,
    '-' :: formatInt lines]

/-- CaptureWindow captures recent output from a tmux window. -/
def CaptureWindow (env : Env) (target : Str) (lines : Int) : Except Str Str :=
  run env (captureArgs target lines)

/-- The arguments of the tmux call of `getPanePID`. -/
def listPanesArgs (paneID : Str) : List Str :=
  ["list-panes".toList, "-t".toList, paneID, "-F".toList, "#{pane_pid}".toList]

/-- The function `getPanePID`: the PID of the main process of the pane, `""` on failure. -/
def getPanePID (env : Env) (paneID : Str) : Str :=
  match run env (listPanesArgs paneID) with
  | .error _ => []
  | .ok out => TrimSpace out

/-- The loop of `hasClaudeChild` over the lines of the `pgrep` output. -/
def hasClaudeChildLoop : List Str → Bool
  | [] => false
  | line :: rest =>
    let line := TrimSpace line
    if line = [] then hasClaudeChildLoop rest
    else
      let parts := Fields line
      if parts.length ≥ 2 then
        let name := parts.getD 1 []
        if name = "node".toList ∨ name = "claude".toList then true
        else hasClaudeChildLoop rest
      else hasClaudeChildLoop rest

/-- The arguments of the `pgrep` call of `hasClaudeChild`. -/
def pgrepArgs (pid : Str) : List Str := ["-P".toList, pid, "-l".toList]

/-- The function `hasClaudeChild`: whether a process has a child running claude/node. -/
def hasClaudeChild (env : Env) (pid : Str) : Bool :=
  match env.exec "pgrep".toList (pgrepArgs pid) with
  | .ok out => hasClaudeChildLoop (Split '\n' out)
  | _ => false

/-- The loop of `IsClaudeRunning` over `supportedShells`. -/
def shellLoop (env : Env) (w : Window) (cmd : Str) : List Str → Bool
  | [] => false
  | shell :: rest =>
    if cmd = shell then
      let pid := getPanePID env w.PaneID
      if pid ≠ [] then hasClaudeChild env pid
      else false
    else shellLoop env w cmd rest

/-- IsClaudeRunning checks if Claude appears to be running in the window. -/
def IsClaudeRunning (env : Env) (w : Window) : Bool :=
  let cmd := w.Command
  if cmd = "node".toList ∨ cmd = "claude".toList then true
  else if MatchString versionPattern cmd then true
  else shellLoop env w cmd supportedShells

/-- The value of the local variable `regexPattern` of `MatchPattern` when it is
compiled: the quoted pattern between `^` and `$`, every `\*` replaced by `.*`. -/
def regexPattern (pattern : Bytes) : Bytes :=
  ReplaceAll (utf8 "^".toList ++ QuoteMeta pattern ++ utf8 "$".toList) (utf8 "\\*".toList)
    (utf8 ".*".toList)

/-- MatchPattern checks if a window name matches a glob-like pattern. The last branch is
the `err != nil` return of the source. -/
def MatchPattern (lim : RegexpLimits) (name pattern : Bytes) : Bool :=
  match Compile lim (regexPattern pattern) with
  | .prog re => MatchString re (Runes name)
  | _ => false

/-- SessionExists checks if a tmux session exists. -/
def SessionExists (env : Env) (session : Str) : Bool :=
  match run env ["has-session".toList, "-t".toList, session] with
  | .ok _ => true
  | .error _ => false

/-! ## `cmd/root.go` -/

/-- The command-line flags (the package variables `linesFlag`, `sessionFlag`, `allFlag`,
`detectFlag`). -/
structure Flags where
  linesFlag : Int
  sessionFlag : Str
  allFlag : Bool
  detectFlag : Bool

/-- The errors that `runPeek` returns, one constructor for each `fmt.Errorf` of the
function; the arguments are the values formatted into the message. -/
inductive PeekError where
  | contextFailed (err : Str)
  | notInsideTmux
  | sessionMissing (session : Str)
  | listFailed (err : Str)
  | windowNotFound (windowName session : Str)
  | captureFailed (err : Str)
  | noTarget
  deriving DecidableEq

/-- What one run of the command produces: the returned error, if any, and the text
written to standard output and to standard error. -/
structure Outcome where
  err : Option PeekError
  stdout : Str
  stderr : Str
  deriving DecidableEq

/-- A run that returns an error before printing anything. -/
def Outcome.fail (e : PeekError) : Outcome := { err := some e, stdout := [], stderr := [] }

/-- The capture target `session:index` (`fmt.Sprintf("%s:%d", session, index)`). -/
def captureTarget (session : Str) (index : Int) : Str :=
  session ++ ":".toList ++ formatInt index

/-- The header of a block, `fmt.Sprintf("=== %s (%s:%d) ===", w.Name, session, w.Index)`. -/
def blockHeader (session : Str) (w : Window) : Str :=
  "=== ".toList ++ w.Name ++ " (".toList ++ session ++ ":".toList ++ formatInt w.Index ++
    ") ===".toList

/-- The session resolution at the start of `runPeek`: the session and the index of the
current window (`-1` outside tmux). -/
def resolveSession (env : Env) (flags : Flags) : Except PeekError (Str × Int) :=
  if IsInsideTmux env then
    match GetCurrentContext env with
    | .error err => .error (.contextFailed err)
    | .ok (session, currentWindowIndex, _) =>
      if flags.sessionFlag ≠ [] then .ok (flags.sessionFlag, currentWindowIndex)
      else .ok (session, currentWindowIndex)
  else
    if flags.sessionFlag = [] then .error .notInsideTmux
    else .ok (flags.sessionFlag, -1)

/-- The search loop of the single-window mode: the first window that matches. -/
def findTarget (windowName : Str) : List Window → Option Window
  | [] => none
  | w :: rest =>
    if w.Name = windowName ∨ formatInt w.Index = windowName then some w
    else findTarget windowName rest

/-- The single-window mode of `runPeek`. -/
def singleWindow (env : Env) (flags : Flags) (session windowName : Str) : Outcome :=
  match ListWindows env session with
  | .error err => .fail (.listFailed err)
  | .ok windows =>
    match findTarget windowName windows with
    | none => .fail (.windowNotFound windowName session)
    | some target =>
      match CaptureWindow env (captureTarget session target.Index) flags.linesFlag with
      | .error err => .fail (.captureFailed err)
      | .ok output => { err := none, stdout := output, stderr := [] }

/-- The body of the selection loop of the all-windows mode for one window. -/
def selectStep (env : Env) (currentWindowIndex : Int) (detect : Bool)
    (targets : List Window) (w : Window) : List Window :=
  if currentWindowIndex ≥ 0 ∧ w.Index = currentWindowIndex then targets
  else if detect && !IsClaudeRunning env w then targets
  else targets ++ [w]

/-- The selection loop of the all-windows mode: the value of `targets` after it. -/
def selectTargets (env : Env) (currentWindowIndex : Int) (detect : Bool)
    (windows : List Window) : List Window :=
  windows.foldl (selectStep env currentWindowIndex detect) []

/-- The body of the capture loop for one target: the state is the slice `outputs` and
the text written to standard error so far. -/
def captureStep (env : Env) (flags : Flags) (session : Str) (st : List Str × Str)
    (w : Window) : List Str × Str :=
  let target := captureTarget session w.Index
  match CaptureWindow env target flags.linesFlag with
  | .error err =>
    (st.1, st.2 ++ "Failed to capture ".toList ++ w.Name ++ ": ".toList ++ err ++ "\n".toList)
  | .ok output => (st.1 ++ [blockHeader session w ++ "\n".toList ++ output], st.2)

/-- The all-windows mode of `runPeek`. -/
def allWindows (env : Env) (flags : Flags) (session : Str) (currentWindowIndex : Int) :
    Outcome :=
  match ListWindows env session with
  | .error err => .fail (.listFailed err)
  | .ok windows =>
    let targets := selectTargets env currentWindowIndex flags.detectFlag windows
    if targets.length = 0 then
      { err := none, stdout := [], stderr := "No windows to capture\n".toList }
    else
      let st := targets.foldl (captureStep env flags session) ([], [])
      { err := none, stdout := Join st.1 "\n".toList, stderr := st.2 }

/-- The function `runPeek`. -/
def runPeek (env : Env) (flags : Flags) (args : List Str) : Outcome :=
  match resolveSession env flags with
  | .error e => .fail e
  | .ok (session, currentWindowIndex) =>
    if !SessionExists env session then .fail (.sessionMissing session)
    else if args.length > 0 && !flags.allFlag then
      singleWindow env flags session (args.headD [])
    else if !flags.allFlag then .fail .noTarget
    else allWindows env flags session currentWindowIndex

/-! ## Specification-side definitions and example environments -/

/-- The condition under which the single-window mode selects a window. -/
def Selects (windowName : Str) (w : Window) : Prop :=
  w.Name = windowName ∨ formatInt w.Index = windowName

instance (windowName : Str) (w : Window) : Decidable (Selects windowName w) := by
  unfold Selects; exact inferInstance

/-- The outcome of the single-window mode once the target is known: the capture of
`session:index` is printed, or its failure is returned. -/
def captureOutcome (env : Env) (flags : Flags) (session : Str) (w : Window) : Outcome :=
  match CaptureWindow env (captureTarget session w.Index) flags.linesFlag with
  | .error err => .fail (.captureFailed err)
  | .ok output => { err := none, stdout := output, stderr := [] }

/-- The environment of the example of C3: a session with the windows `0: main` and
`1: editor`, every capture printing the requested target. -/
def selectEnv : Env where
  tmuxPane := "%0".toList
  exec := fun _ args =>
    if args.headD [] = "list-windows".toList then .ok "0|main|%0|zsh\n1|editor|%1|vim\n".toList
    else .ok (args.getD 3 [])

/-- The windows that the all-windows mode keeps: those whose index differs from the
current one when that is known (non-negative), and, under `--detect`, those for which
`IsClaudeRunning` holds. -/
def Kept (env : Env) (c : Int) (detect : Bool) (w : Window) : Prop :=
  (c < 0 ∨ w.Index ≠ c) ∧ (detect = true → IsClaudeRunning env w = true)

instance (env : Env) (c : Int) (detect : Bool) (w : Window) :
    Decidable (Kept env c detect w) := by
  unfold Kept; exact inferInstance

/-- The targets whose capture succeeds, in target order, each with its captured text:
what the capture loop of the all-windows mode keeps; a target whose capture fails is
skipped. -/
def capturedTexts (env : Env) (flags : Flags) (session : Str) (targets : List Window) :
    List (Window × Str) :=
  targets.filterMap (fun w =>
    match CaptureWindow env (captureTarget session w.Index) flags.linesFlag with
    | .ok text => some (w, text)
    | .error _ => none)

/-- The environment of the counterexample of C5: a session with the windows `0: a` and
`1: b`; the capture of `s:0` prints `x` and the capture of `s:1` prints `y`, both without
a final newline. -/
def blockEnv : Env where
  tmuxPane := []
  exec := fun name args =>
    if name = "tmux".toList ∧ args = ["list-windows".toList, "-t".toList, "s".toList,
        "-F".toList,
        "#{window_index}|#{window_name}|#{pane_id}|#{pane_current_command}".toList] then
      .ok "0|a|%0|zsh\n1|b|%1|vim\n".toList
    else if name = "tmux".toList ∧ args = ["capture-pane".toList, "-p".toList, "-t".toList,
        "s:0".toList, "-S".toList, "-100".toList] then .ok "x".toList
    else if name = "tmux".toList ∧ args = ["capture-pane".toList, "-p".toList, "-t".toList,
        "s:1".toList, "-S".toList, "-100".toList] then .ok "y".toList
    else .failed "unexpected command".toList

/-- The environment of the witness of C5: a session with the windows `0: a`, `1: b` and
`2: c`; the capture of `s:0` prints the line `x`, the capture of `s:1` fails, and the
capture of `s:2` prints the line `z`. -/
def blockEnvNL : Env where
  tmuxPane := []
  exec := fun name args =>
    if name = "tmux".toList ∧ args = ["list-windows".toList, "-t".toList, "s".toList,
        "-F".toList,
        "#{window_index}|#{window_name}|#{pane_id}|#{pane_current_command}".toList] then
      .ok "0|a|%0|zsh\n1|b|%1|vim\n2|c|%2|vim\n".toList
    else if name = "tmux".toList ∧ args = ["capture-pane".toList, "-p".toList, "-t".toList,
        "s:0".toList, "-S".toList, "-100".toList] then .ok "x\n".toList
    else if name = "tmux".toList ∧ args = ["capture-pane".toList, "-p".toList, "-t".toList,
        "s:2".toList, "-S".toList, "-100".toList] then .ok "z\n".toList
    else .exitError "can't find window".toList

/-- The environment of the counterexample of C9: inside the pane `%0`, the
display-message query prints `a|b|3`, which has three pipe-delimited parts. -/
def contextEnv : Env where
  tmuxPane := "%0".toList
  exec := fun name args =>
    if name = "tmux".toList ∧ args = ["display-message".toList, "-p".toList, "-t".toList,
        "%0".toList, "#{session_name}|#{window_index}".toList] then .ok "a|b|3\n".toList
    else .failed "unexpected command".toList

/-- An environment whose display-message query prints the two parts `main|2`. -/
def contextEnvTwo : Env where
  tmuxPane := "%0".toList
  exec := fun name args =>
    if name = "tmux".toList ∧ args = ["display-message".toList, "-p".toList, "-t".toList,
        "%0".toList, "#{session_name}|#{window_index}".toList] then .ok "main|2\n".toList
    else .failed "unexpected command".toList

/-- An environment whose display-message query prints `main` alone, without any `|`. -/
def contextEnvOne : Env where
  tmuxPane := "%0".toList
  exec := fun name args =>
    if name = "tmux".toList ∧ args = ["display-message".toList, "-p".toList, "-t".toList,
        "%0".toList, "#{session_name}|#{window_index}".toList] then .ok "main\n".toList
    else .failed "unexpected command".toList

/-- The output of `tmux list-windows` that is one line of four fields, the first being
the index in decimal, with or without the final newline. -/
def windowLine (i : Int) (name paneID command : Str) (nl : Bool) : Str :=
  formatInt i ++ '|' :: (name ++ '|' :: (paneID ++ '|' :: (command ++
    (if nl then ['\n'] else []))))

/-- The environment of the example of C1: the session has one window whose command field
is `vim` followed by a space. -/
def trailingSpaceEnv : Env where
  tmuxPane := []
  exec := fun _ _ => .ok "0|main|%0|vim \n".toList

/-- An environment whose session has the one window `3|editor|%7|vim`. -/
def oneWindowEnv : Env where
  tmuxPane := []
  exec := fun _ _ => .ok "3|editor|%7|vim\n".toList

/-- What a line of the `tmux list-windows` output contributes, read off its
pipe-delimited fields: the second and third field when the line has at least four fields,
nothing otherwise. -/
def lineEntry (line : Str) : Option (Str × Str) :=
  if 4 ≤ (Split '|' line).length then
    some ((Split '|' line).getD 1 [], (Split '|' line).getD 2 [])
  else none

/-- The window that the loop of `ListWindows` makes of one line, if any. -/
def parseLine (session : Str) (line : Str) : Option Window :=
  if line = [] then none
  else if (SplitN '|' 4 line).length < 4 then none
  else some { Session := session, Index := SscanfInt ((SplitN '|' 4 line).getD 0 []),
              Name := (SplitN '|' 4 line).getD 1 [], PaneID := (SplitN '|' 4 line).getD 2 [],
              Command := (SplitN '|' 4 line).getD 3 [] }

/-- The environment of the example of C6: a listing with an empty line, two malformed
lines and two well-formed lines. -/
def mixedEnv : Env where
  tmuxPane := []
  exec := fun _ _ => .ok "\n0|main|%0|zsh\nbroken\n1|two|%1\n\n7|editor|%3|vim|x\n".toList

/-- Whether a line of the child-process listing reports the command name `node` or
`claude`: the name is the second white-space-separated field of the line. -/
def ReportsClaude (line : Str) : Prop :=
  (Fields line)[1]? = some "node".toList ∨ (Fields line)[1]? = some "claude".toList

instance (line : Str) : Decidable (ReportsClaude line) := by
  unfold ReportsClaude; exact inferInstance

/-- The environment of the witness of C10: the list-panes query for the pane `%0` prints
the pid 123, and the child listing `pgrep -P 123 -l` prints the children `vim` and `node`;
any other command fails. -/
def paneEnv : Env where
  tmuxPane := "%0".toList
  exec := fun name args =>
    if name = "tmux".toList ∧ args = ["list-panes".toList, "-t".toList, "%0".toList,
        "-F".toList, "#{pane_pid}".toList] then .ok "123\n".toList
    else if name = "pgrep".toList ∧ args = ["-P".toList, "123".toList, "-l".toList] then
      .ok "150 vim\n 200 node \n".toList
    else .failed "unexpected command".toList

/-- An environment in which every tmux query prints `123` and every other command prints
a listing with the children `vim` and `node`. -/
def shellEnv : Env where
  tmuxPane := "%0".toList
  exec := fun name _ =>
    if name = "tmux".toList then .ok "123\n".toList
    else .ok "150 vim\n 200 node \n".toList

/-- A version number in the words of the specification: three non-empty runs of decimal
digits separated by single dots, nothing before or after. -/
def IsVersion (s : Str) : Prop :=
  ∃ a b c : Str, a ≠ [] ∧ b ≠ [] ∧ c ≠ [] ∧
    (∀ x ∈ a, isDigit x = true) ∧ (∀ x ∈ b, isDigit x = true) ∧ (∀ x ∈ c, isDigit x = true) ∧
    s = a ++ '.' :: (b ++ '.' :: c)

/-- The characters that `regexp.QuoteMeta` escapes. -/
def isRegexSpecial (c : Char) : Bool :=
  "\\.+*?()|[]{}^$".toList.elem c

/-- A `regexp` compiler that rejects no expression as too large. -/
def noLimit : RegexpLimits := ⟨fun _ => false⟩

/-- The text of the regular expression that `MatchPattern` builds from a pattern, without
the anchors: `.*` for a `*`, an escaped character for any other special character, and
the character itself otherwise. -/
def globText (pattern : Str) : Str :=
  pattern.flatMap (fun c =>
    if c = '*' then ['.', '*'] else if isRegexSpecial c then ['\\', c] else [c])

/-- The program that `MatchPattern` compiles from a pattern, without the anchors: a
starred any-character item for a `*`, a literal item for any other character. -/
def globProg (pattern : Str) : List Inst :=
  pattern.map (fun c => if c = '*' then Inst.star .anyNotNL else Inst.one (.lit c))

/-- A `regexp` compiler that rejects the expressions of more than `n` bytes. -/
def lengthLimit (n : Nat) : RegexpLimits := ⟨fun expr => decide (n < expr.length)⟩

/-! ## Facts about the `strings` functions -/

theorem mem_dropWhile_iff {p : Char → Bool} {x : Char} (hx : p x = false) (l : Str) :
    x ∈ l.dropWhile p ↔ x ∈ l := by
  induction l with
  | nil => simp
  | cons c cs ih =>
    by_cases hc : p c = true
    · rw [List.dropWhile_cons_of_pos hc, ih]
      have hne : x ≠ c := by
        rintro rfl
        rw [hx] at hc
        cases hc
      simp [hne]
    · rw [List.dropWhile_cons_of_neg hc]

theorem mem_rdropWhile_iff {p : Char → Bool} {x : Char} (hx : p x = false) (l : Str) :
    x ∈ l.rdropWhile p ↔ x ∈ l := by
  unfold List.rdropWhile
  rw [List.mem_reverse, mem_dropWhile_iff hx, List.mem_reverse]

theorem mem_TrimSpace_iff {x : Char} (hx : isSpace x = false) (s : Str) :
    x ∈ TrimSpace s ↔ x ∈ s := by
  unfold TrimSpace
  rw [mem_rdropWhile_iff hx, mem_dropWhile_iff hx]

theorem Cut_eq_none_iff (sep : Char) (s : Str) : Cut sep s = none ↔ sep ∉ s := by
  induction s with
  | nil => simp [Cut]
  | cons c cs ih =>
    by_cases hc : c = sep
    · simp [Cut, hc]
    · have hne : ¬ sep = c := fun h => hc h.symm
      cases hcut : Cut sep cs with
      | none =>
        have := ih.1 hcut
        simp [Cut, hc, hcut, hne, this]
      | some ab =>
        have hin : ¬ sep ∉ cs := fun h => by
          rw [ih.2 h] at hcut
          cases hcut
        simp only [Cut, hc, if_false, hcut, List.mem_cons, not_or]
        constructor
        · intro h
          cases h
        · intro h
          exact absurd h.2 hin

theorem Cut_append (sep : Char) (a b : Str) (ha : sep ∉ a) :
    Cut sep (a ++ sep :: b) = some (a, b) := by
  induction a with
  | nil => simp [Cut]
  | cons c cs ih =>
    have hc : ¬ c = sep := fun h => ha (by simp [h])
    have hcs : sep ∉ cs := fun h => ha (by simp [h])
    simp [Cut, hc, ih hcs]

theorem Split_ne_nil (sep : Char) (s : Str) : Split sep s ≠ [] := by
  cases s with
  | nil => simp [Split]
  | cons c cs =>
    by_cases hc : c = sep
    · simp [Split, hc]
    · simp only [Split, hc, if_false]
      cases Split sep cs <;> simp

theorem Split_eq_cut (sep : Char) (s : Str) :
    Split sep s =
      match Cut sep s with
      | none => [s]
      | some (a, b) => a :: Split sep b := by
  induction s with
  | nil => simp [Split, Cut]
  | cons c cs ih =>
    by_cases hc : c = sep
    · simp [Split, Cut, hc]
    · simp only [Split, Cut, hc, if_false]
      rw [ih]
      cases Cut sep cs with
      | none => rfl
      | some ab => rfl

theorem Split_of_not_mem (sep : Char) (s : Str) (h : sep ∉ s) : Split sep s = [s] := by
  rw [Split_eq_cut, (Cut_eq_none_iff sep s).2 h]

theorem Split_length_lt_two_iff (sep : Char) (s : Str) :
    (Split sep s).length < 2 ↔ sep ∉ s := by
  rw [Split_eq_cut, ← Cut_eq_none_iff]
  cases hcut : Cut sep s with
  | none => simp
  | some ab =>
    have := Split_ne_nil sep ab.2
    cases hs : Split sep ab.2 with
    | nil => exact absurd hs this
    | cons x xs => simp [hs]

theorem isSpace_pipe : isSpace '|' = false := by decide

/-! ## `GetCurrentContext` -/

theorem GetCurrentContext_eq (env : Env) (out : Str) (hpane : env.tmuxPane ≠ [])
    (hrun : run env (displayMessageArgs env.tmuxPane) = .ok out) :
    GetCurrentContext env =
      match Cut '|' (TrimSpace out) with
      | none => .error ("unexpected tmux output: ".toList ++ out)
      | some (a, b) => .ok (a, SscanfInt b, env.tmuxPane) := by
  unfold GetCurrentContext
  simp only [hpane, if_false, hrun]
  cases hcut : Cut '|' (TrimSpace out) with
  | none => simp [SplitN, hcut]
  | some ab => simp [SplitN, hcut]

theorem run_eq_ok_iff (env : Env) (args : List Str) (out : Str) :
    run env args = .ok out ↔ env.exec "tmux".toList args = .ok out := by
  unfold run
  cases h : env.exec "tmux".toList args with
  | ok o => simp
  | exitError e => simp
  | failed m => simp

/-- C9 (as amended): when `TMUX_PANE` is set and the display-message query for that pane
succeeds, `GetCurrentContext` fails if and only if the output of the query has fewer than
two pipe-delimited parts, that is, contains no `|`; it does not fail for an output that
has three or more pipe-delimited parts. -/
theorem GetCurrentContext_fails_iff (env : Env) (out : Str) (hpane : env.tmuxPane ≠ [])
    (hrun : env.exec "tmux".toList ["display-message".toList, "-p".toList, "-t".toList,
      env.tmuxPane, "#{session_name}|#{window_index}".toList] = .ok out) :
    ((∃ e, GetCurrentContext env = .error e) ↔ (Split '|' out).length < 2) ∧
      (3 ≤ (Split '|' out).length → ∃ r, GetCurrentContext env = .ok r) := by
  have hrun' : run env (displayMessageArgs env.tmuxPane) = .ok out :=
    (run_eq_ok_iff env _ out).2 hrun
  have heq := GetCurrentContext_eq env out hpane hrun'
  have hiff : (∃ e, GetCurrentContext env = .error e) ↔ (Split '|' out).length < 2 := by
    rw [Split_length_lt_two_iff, ← mem_TrimSpace_iff isSpace_pipe, ← Cut_eq_none_iff, heq]
    cases hcut : Cut '|' (TrimSpace out) with
    | none => simp
    | some ab => simp
  refine ⟨hiff, ?_⟩
  intro h3
  cases hg : GetCurrentContext env with
  | ok r => exact ⟨r, rfl⟩
  | error e =>
    have := hiff.1 ⟨e, hg⟩
    omega

/-- Witness for C9: the output `main|2` is accepted and the output `main` is refused. -/
theorem GetCurrentContext_fails_iff_witness :
    ¬ (∃ e, GetCurrentContext contextEnvTwo = .error e) ∧
      (∃ e, GetCurrentContext contextEnvOne = .error e) :=
  ⟨fun h => absurd ((GetCurrentContext_fails_iff contextEnvTwo "main|2\n".toList
      (by decide) (by rfl)).1.1 h) (by decide),
    (GetCurrentContext_fails_iff contextEnvOne "main\n".toList (by decide) (by rfl)).1.2
      (by decide)⟩

/-- Counterexample for C9 as stated: the output `a|b|3` has three pipe-delimited parts,
and `GetCurrentContext` does not fail on it; it returns the session `a` and the index 0. -/
theorem GetCurrentContext_three_parts :
    (Split '|' "a|b|3".toList).length = 3 ∧
      run contextEnv (displayMessageArgs contextEnv.tmuxPane) = .ok "a|b|3\n".toList ∧
      GetCurrentContext contextEnv = .ok ("a".toList, 0, "%0".toList) := by
  refine ⟨by decide, by rfl, by rfl⟩

/-! ## Selection of windows (`cmd/root.go`) -/

theorem findTarget_none (a : Str) (ws : List Window) :
    findTarget a ws = none ↔ ∀ w ∈ ws, ¬ Selects a w := by
  induction ws with
  | nil => simp [findTarget]
  | cons w rest ih =>
    by_cases h : w.Name = a ∨ formatInt w.Index = a
    · have hs : Selects a w := h
      simp only [findTarget, h, if_true, List.mem_cons, forall_eq_or_imp]
      constructor
      · intro hc
        cases hc
      · intro hc
        exact absurd hs hc.1
    · have hs : ¬ Selects a w := h
      simp only [findTarget, h, if_false, ih, List.mem_cons, forall_eq_or_imp]
      exact ⟨fun hc => ⟨hs, hc⟩, fun hc => hc.2⟩

theorem findTarget_some (a : Str) (ws : List Window) (w : Window) :
    findTarget a ws = some w ↔
      ∃ pre post, ws = pre ++ w :: post ∧ Selects a w ∧ ∀ x ∈ pre, ¬ Selects a x := by
  induction ws with
  | nil => simp [findTarget]
  | cons x rest ih =>
    by_cases h : x.Name = a ∨ formatInt x.Index = a
    · simp only [findTarget, h, if_true, Option.some.injEq]
      constructor
      · rintro rfl
        exact ⟨[], rest, rfl, h, by simp⟩
      · rintro ⟨pre, post, heq, _, hpre⟩
        cases pre with
        | nil => simp at heq; exact heq.1
        | cons y pre' =>
          simp at heq
          exact absurd (heq.1 ▸ h) (hpre y (by simp))
    · simp only [findTarget, h, if_false, ih]
      constructor
      · rintro ⟨pre, post, heq, hw, hpre⟩
        refine ⟨x :: pre, post, by simp [heq], hw, ?_⟩
        intro y hy
        rcases List.mem_cons.1 hy with rfl | hy
        · exact h
        · exact hpre y hy
      · rintro ⟨pre, post, heq, hw, hpre⟩
        cases pre with
        | nil => simp at heq; exact absurd (heq.1 ▸ hw) h
        | cons y pre' =>
          simp at heq
          exact ⟨pre', post, heq.2, hw, fun z hz => hpre z (by simp [hz])⟩

theorem captureOutcome_err (env : Env) (flags : Flags) (session a : Str) (w : Window) :
    (captureOutcome env flags session w).err ≠ some (.windowNotFound a session) := by
  unfold captureOutcome
  cases CaptureWindow env (captureTarget session w.Index) flags.linesFlag <;>
    simp [Outcome.fail]

theorem singleWindow_eq (env : Env) (flags : Flags) (session a : Str)
    (windows : List Window) (hlist : ListWindows env session = .ok windows) :
    singleWindow env flags session a =
      match findTarget a windows with
      | none => .fail (.windowNotFound a session)
      | some t => captureOutcome env flags session t := by
  unfold singleWindow
  rw [hlist]
  rfl

/-- C3: in single-window mode, once the windows are listed, the window whose capture is
requested is the first listed window whose name equals the argument or whose index in
decimal equals it, and the "window not found" error is returned exactly when no listed
window satisfies either condition. -/
theorem singleWindow_selects_first (env : Env) (flags : Flags) (session a : Str)
    (windows : List Window) (hlist : ListWindows env session = .ok windows) :
    ((singleWindow env flags session a).err = some (.windowNotFound a session) ↔
        ∀ w ∈ windows, ¬ Selects a w) ∧
    ((∃ w ∈ windows, Selects a w) →
      ∃ pre w post, windows = pre ++ w :: post ∧ Selects a w ∧ (∀ x ∈ pre, ¬ Selects a x) ∧
        singleWindow env flags session a = captureOutcome env flags session w) := by
  have hsw := singleWindow_eq env flags session a windows hlist
  cases hf : findTarget a windows with
  | none =>
    rw [hf] at hsw
    have hnone := (findTarget_none a windows).1 hf
    refine ⟨?_, ?_⟩
    · rw [hsw]
      exact ⟨fun _ => hnone, fun _ => rfl⟩
    · rintro ⟨w, hw, hsel⟩
      exact absurd hsel (hnone w hw)
  | some t =>
    rw [hf] at hsw
    obtain ⟨pre, post, heq, hsel, hpre⟩ := (findTarget_some a windows t).1 hf
    have hcap := captureOutcome_err env flags session a t
    rw [hsw]
    constructor
    · constructor
      · intro h
        exact absurd h hcap
      · intro h
        exact absurd hsel (h t (by simp [heq]))
    · intro _
      exact ⟨pre, t, post, heq, hsel, hpre, rfl⟩

/-- Witness for C3 on the windows `[{0,"main"},{1,"editor"}]`: the arguments `"editor"`
and `"1"` both request the capture of index 1. -/
theorem singleWindow_selects_first_witness :
    (∃ pre w post,
      [(⟨"s".toList, 0, "main".toList, "%0".toList, "zsh".toList⟩ : Window),
        ⟨"s".toList, 1, "editor".toList, "%1".toList, "vim".toList⟩] = pre ++ w :: post ∧
      Selects "editor".toList w ∧ (∀ x ∈ pre, ¬ Selects "editor".toList x) ∧
      singleWindow selectEnv ⟨100, [], false, false⟩ "s".toList "editor".toList =
        captureOutcome selectEnv ⟨100, [], false, false⟩ "s".toList w) ∧
    singleWindow selectEnv ⟨100, [], false, false⟩ "s".toList "editor".toList =
      ⟨none, "s:1".toList, []⟩ ∧
    singleWindow selectEnv ⟨100, [], false, false⟩ "s".toList "1".toList =
      ⟨none, "s:1".toList, []⟩ :=
  ⟨(singleWindow_selects_first selectEnv ⟨100, [], false, false⟩ "s".toList "editor".toList
      [⟨"s".toList, 0, "main".toList, "%0".toList, "zsh".toList⟩,
        ⟨"s".toList, 1, "editor".toList, "%1".toList, "vim".toList⟩] (by rfl)).2
      ⟨⟨"s".toList, 1, "editor".toList, "%1".toList, "vim".toList⟩, by simp, by decide⟩,
    by rfl, by rfl⟩

theorem foldl_selectStep (env : Env) (c : Int) (detect : Bool) (ws acc : List Window) :
    ws.foldl (selectStep env c detect) acc =
      acc ++ ws.filter (fun w => decide (Kept env c detect w)) := by
  induction ws generalizing acc with
  | nil => simp
  | cons w rest ih =>
    rw [List.foldl_cons, ih]
    by_cases h1 : c ≥ 0 ∧ w.Index = c
    · have hk : ¬ Kept env c detect w := by
        rintro ⟨hc, _⟩
        rcases hc with hc | hc
        · omega
        · exact hc h1.2
      simp [selectStep, h1, hk]
    · by_cases h2 : (detect && !IsClaudeRunning env w) = true
      · have hk : ¬ Kept env c detect w := by
          rintro ⟨_, hd⟩
          simp only [Bool.and_eq_true, Bool.not_eq_true'] at h2
          rw [hd h2.1] at h2
          exact absurd h2.2 (by simp)
        simp [selectStep, h1, h2, hk]
      · have hk : Kept env c detect w := by
          refine ⟨?_, ?_⟩
          · by_cases hc : c < 0
            · exact Or.inl hc
            · right
              intro hi
              exact h1 ⟨by omega, hi⟩
          · intro hd
            cases hr : IsClaudeRunning env w with
            | true => rfl
            | false => simp [hd, hr] at h2
        simp [selectStep, h1, h2, hk]

/-- C4: in all-windows mode the capture targets are exactly the listed windows, in
listing order, whose index differs from the current index `c` when `c ≥ 0` (nothing is
excluded for the sentinel `-1`) and, under `--detect`, for which `IsClaudeRunning` holds;
with `c = 0` no target has index 0. -/
theorem selectTargets_eq_filter (env : Env) (c : Int) (detect : Bool)
    (windows : List Window) :
    selectTargets env c detect windows =
        windows.filter (fun w => decide (Kept env c detect w)) ∧
      selectTargets env (-1) detect windows =
        windows.filter (fun w => !detect || IsClaudeRunning env w) ∧
      (selectTargets env 0 detect windows).all (fun w => decide (w.Index ≠ 0)) = true := by
  refine ⟨?_, ?_, ?_⟩
  · simp [selectTargets, foldl_selectStep]
  · simp only [selectTargets, foldl_selectStep, List.nil_append]
    congr 1
    funext w
    cases detect <;> simp [Kept]
  · simp only [selectTargets, foldl_selectStep, List.nil_append, List.all_eq_true,
      List.mem_filter, decide_eq_true_eq]
    rintro w ⟨_, hk⟩
    rcases hk.1 with h | h
    · omega
    · exact h

theorem runPeek_single (env : Env) (flags : Flags) (session a : Str) (c : Int)
    (rest : List Str) (hres : resolveSession env flags = .ok (session, c))
    (hex : SessionExists env session = true) (hall : flags.allFlag = false) :
    runPeek env flags (a :: rest) = singleWindow env flags session a := by
  simp [runPeek, hres, hex, hall]

theorem runPeek_all (env : Env) (flags : Flags) (session : Str) (c : Int)
    (args : List Str) (hres : resolveSession env flags = .ok (session, c))
    (hex : SessionExists env session = true) (hall : flags.allFlag = true) :
    runPeek env flags args = allWindows env flags session c := by
  simp [runPeek, hres, hex, hall]

theorem resolveSession_outside (env : Env) (flags : Flags) (hpane : env.tmuxPane = [])
    (hs : flags.sessionFlag ≠ []) :
    resolveSession env flags = .ok (flags.sessionFlag, -1) := by
  simp [resolveSession, IsInsideTmux, hpane, hs]

/-! ## Output of the all-windows mode (`cmd/root.go`) -/

theorem foldl_captureStep_fst (env : Env) (flags : Flags) (session : Str)
    (targets : List Window) (st : List Str × Str) :
    (targets.foldl (captureStep env flags session) st).1 =
      st.1 ++ (capturedTexts env flags session targets).map
        (fun p => blockHeader session p.1 ++ "\n".toList ++ p.2) := by
  induction targets generalizing st with
  | nil => simp [capturedTexts]
  | cons w rest ih =>
    rw [List.foldl_cons, ih]
    cases hw : CaptureWindow env (captureTarget session w.Index) flags.linesFlag with
    | error e => simp [captureStep, capturedTexts, hw]
    | ok text => simp [captureStep, capturedTexts, hw]

theorem Join_append_sep {α : Type} (f : α → Str) (nl : Str) (l : List α) (hne : l ≠ []) :
    Join (l.map (fun w => f w ++ nl)) nl = Join (l.map f) (nl ++ nl) ++ nl := by
  induction l with
  | nil => exact absurd rfl hne
  | cons w rest ih =>
    cases rest with
    | nil => simp [Join]
    | cons x rest' =>
      have ih' := ih (by simp)
      simp only [List.map_cons] at ih' ⊢
      simp only [Join, ih']
      simp [List.append_assoc]

/-- C5 (as amended): in all-windows mode with at least one target, standard output is
the blocks of the targets whose capture succeeded, in target order (a target whose
capture fails contributes nothing), joined by one newline character, each block being the
header line `=== name (session:index) ===` followed by the captured text; when every
captured text ends with a newline, consecutive blocks are therefore separated by an
empty line. -/
theorem allWindows_stdout (env : Env) (flags : Flags) (session : Str) (c : Int)
    (windows : List Window) (body : Window → Str)
    (hlist : ListWindows env session = .ok windows)
    (hne : selectTargets env c flags.detectFlag windows ≠ []) :
    (allWindows env flags session c).stdout =
        Join ((capturedTexts env flags session
            (selectTargets env c flags.detectFlag windows)).map
          (fun p => blockHeader session p.1 ++ "\n".toList ++ p.2)) "\n".toList ∧
      (capturedTexts env flags session (selectTargets env c flags.detectFlag windows) ≠ [] →
        (∀ p ∈ capturedTexts env flags session (selectTargets env c flags.detectFlag windows),
          p.2 = body p.1 ++ "\n".toList) →
        (allWindows env flags session c).stdout =
          Join ((capturedTexts env flags session
              (selectTargets env c flags.detectFlag windows)).map
            (fun p => blockHeader session p.1 ++ "\n".toList ++ body p.1)) "\n\n".toList ++
          "\n".toList) := by
  have hlen : (selectTargets env c flags.detectFlag windows).length ≠ 0 := by
    simpa [List.length_eq_zero] using hne
  have hout : (allWindows env flags session c).stdout =
      Join ((capturedTexts env flags session
          (selectTargets env c flags.detectFlag windows)).map
        (fun p => blockHeader session p.1 ++ "\n".toList ++ p.2)) "\n".toList := by
    unfold allWindows
    rw [hlist]
    simp only [hlen, if_false]
    rw [foldl_captureStep_fst]
    simp
  refine ⟨hout, ?_⟩
  intro hsome hbody
  rw [hout]
  have hmap : (capturedTexts env flags session
        (selectTargets env c flags.detectFlag windows)).map
        (fun p => blockHeader session p.1 ++ "\n".toList ++ p.2) =
      (capturedTexts env flags session (selectTargets env c flags.detectFlag windows)).map
        (fun p => (blockHeader session p.1 ++ "\n".toList ++ body p.1) ++ "\n".toList) := by
    apply List.map_congr_left
    intro p hp
    rw [hbody p hp]
    simp [List.append_assoc]
  rw [hmap]
  have hjoin := @Join_append_sep (Window × Str)
    (fun p => blockHeader session p.1 ++ "\n".toList ++ body p.1) "\n".toList
    (capturedTexts env flags session (selectTargets env c flags.detectFlag windows)) hsome
  have hnl : "\n".toList ++ "\n".toList = "\n\n".toList := by decide
  rw [hnl] at hjoin
  exact hjoin

/-- Witness for C5: three targets, the capture of the second one failing; the blocks of
the first and the third are printed, with an empty line between them, and the failure is
reported on standard error. -/
theorem allWindows_stdout_witness :
    (allWindows blockEnvNL ⟨100, "s".toList, true, false⟩ "s".toList (-1)).stdout =
        "=== a (s:0) ===\nx\n\n=== c (s:2) ===\nz\n".toList ∧
      (allWindows blockEnvNL ⟨100, "s".toList, true, false⟩ "s".toList (-1)).stderr =
        "Failed to capture b: tmux capture-pane: can't find window\n".toList :=
  ⟨((allWindows_stdout blockEnvNL ⟨100, "s".toList, true, false⟩ "s".toList (-1)
      [⟨"s".toList, 0, "a".toList, "%0".toList, "zsh".toList⟩,
        ⟨"s".toList, 1, "b".toList, "%1".toList, "vim".toList⟩,
        ⟨"s".toList, 2, "c".toList, "%2".toList, "vim".toList⟩]
      (fun w => if w.Index = 0 then "x".toList else "z".toList) (by rfl) (by decide)).2
      (by decide) (by decide)).trans (by rfl),
    by rfl⟩

/-- Counterexample for C5 as stated: two targets whose captured texts are `x` and `y`
without a final newline; the second header follows the first captured text directly, and
the printed text has no empty line at all. -/
theorem allWindows_no_blank_line :
    (allWindows blockEnv ⟨100, "s".toList, true, false⟩ "s".toList (-1)).stdout =
        "=== a (s:0) ===\nx\n=== b (s:1) ===\ny".toList ∧
      ¬ ("\n\n".toList <:+:
        (allWindows blockEnv ⟨100, "s".toList, true, false⟩ "s".toList (-1)).stdout) := by
  constructor
  · rfl
  · decide

/-! ## Facts about `%d` -/

theorem digitChar_toNat (d : Nat) (hd : d < 10) : (Nat.digitChar d).toNat = 48 + d := by
  interval_cases d <;> rfl

theorem digitChar_isDigit (d : Nat) (hd : d < 10) : isDigit (Nat.digitChar d) = true := by
  interval_cases d <;> rfl

theorem formatNatLoop_append (fuel u : Nat) (acc : Str) :
    formatNatLoop fuel u acc = formatNatLoop fuel u [] ++ acc := by
  induction fuel generalizing u acc with
  | zero => simp [formatNatLoop]
  | succ f ih =>
    by_cases hu : u < 10
    · simp [formatNatLoop, hu]
    · simp only [formatNatLoop, hu, if_false]
      rw [ih (u / 10) (Nat.digitChar (u % 10) :: acc), ih (u / 10) [Nat.digitChar (u % 10)]]
      simp

theorem digitsValue_append (acc : Nat) (xs ys : Str) :
    digitsValue acc (xs ++ ys) = digitsValue (digitsValue acc xs) ys := by
  induction xs generalizing acc with
  | nil => rfl
  | cons c cs ih => exact ih _

theorem formatNatLoop_value (fuel u : Nat) (h : u < fuel) :
    digitsValue 0 (formatNatLoop fuel u []) = u := by
  induction fuel generalizing u with
  | zero => omega
  | succ f ih =>
    by_cases hu : u < 10
    · rw [formatNatLoop, if_pos hu]
      show 0 * 10 + ((Nat.digitChar u).toNat - 48) = u
      rw [digitChar_toNat u hu]
      omega
    · rw [formatNatLoop, if_neg hu, formatNatLoop_append, digitsValue_append,
        ih (u / 10) (by omega)]
      show u / 10 * 10 + ((Nat.digitChar (u % 10)).toNat - 48) = u
      rw [digitChar_toNat (u % 10) (by omega)]
      omega

theorem formatNatLoop_digits (fuel u : Nat) :
    ∀ c ∈ formatNatLoop fuel u [], isDigit c = true := by
  induction fuel generalizing u with
  | zero => simp [formatNatLoop]
  | succ f ih =>
    by_cases hu : u < 10
    · simp [formatNatLoop, hu, digitChar_isDigit u hu]
    · simp only [formatNatLoop, hu, if_false]
      rw [formatNatLoop_append]
      intro c hc
      rcases List.mem_append.1 hc with hc | hc
      · exact ih _ c hc
      · rw [List.mem_singleton.1 hc]
        exact digitChar_isDigit _ (by omega)

theorem formatNat_ne_nil (n : Nat) : formatNat n ≠ [] := by
  unfold formatNat
  by_cases hu : n < 10
  · simp [formatNatLoop, hu]
  · simp only [formatNatLoop, hu, if_false]
    rw [formatNatLoop_append]
    simp

theorem formatNat_digits (n : Nat) : ∀ c ∈ formatNat n, isDigit c = true :=
  formatNatLoop_digits (n + 1) n

theorem formatNat_value (n : Nat) : digitsValue 0 (formatNat n) = n :=
  formatNatLoop_value (n + 1) n (by omega)

theorem isDigit_facts (c : Char) (h : isDigit c = true) :
    c ≠ '-' ∧ c ≠ '+' ∧ c ≠ '|' ∧ c ≠ '\n' ∧ isSpace c = false := by
  have h1 : 48 ≤ c.toNat ∧ c.toNat ≤ 57 := by
    simpa [isDigit] using h
  refine ⟨?_, ?_, ?_, ?_, ?_⟩
  · rintro rfl
    revert h; decide
  · rintro rfl
    revert h; decide
  · rintro rfl
    revert h; decide
  · rintro rfl
    revert h; decide
  · simp only [isSpace, Bool.or_eq_false_iff, Bool.and_eq_false_iff, decide_eq_false_iff_not,
      beq_eq_false_iff_ne, ne_eq]
    omega

theorem scanNumber_formatNat (neg : Bool) (n : Nat)
    (hr : - (2 : Int) ^ 63 ≤ (if neg then - (n : Int) else (n : Int)) ∧
      (if neg then - (n : Int) else (n : Int)) < (2 : Int) ^ 63) :
    scanNumber neg (formatNat n) = some (if neg then - (n : Int) else (n : Int)) := by
  unfold scanNumber
  have htw : (formatNat n).takeWhile isDigit = formatNat n :=
    List.takeWhile_eq_self_iff.2 (formatNat_digits n)
  simp only [htw, formatNat_ne_nil n, if_false, formatNat_value]
  rw [if_pos hr]

theorem SscanfInt_formatInt (i : Int) (hi : - (2 : Int) ^ 63 ≤ i ∧ i < (2 : Int) ^ 63) :
    SscanfInt (formatInt i) = i := by
  unfold SscanfInt formatInt
  by_cases hneg : i < 0
  · have hval : (if true = true then - ((i.natAbs : Nat) : Int) else (i.natAbs : Int)) = i := by
      simp only [if_true]
      omega
    have hs := scanNumber_formatNat true i.natAbs (by rw [hval]; exact hi)
    rw [hval] at hs
    simp only [hneg, if_true]
    have hsk : skipSpace ('-' :: formatNat i.natAbs) = some ('-' :: formatNat i.natAbs) := by
      simp only [skipSpace]
      rw [if_neg (by decide), if_neg (by decide)]
    rw [hsk]
    simp [scanInt, hs]
  · have hval : (if false = true then - ((i.natAbs : Nat) : Int) else (i.natAbs : Int)) = i := by
      simp only [Bool.false_eq_true, if_false]
      omega
    have hs := scanNumber_formatNat false i.natAbs (by rw [hval]; exact hi)
    rw [hval] at hs
    simp only [hneg, if_false]
    cases hf : formatNat i.natAbs with
    | nil => exact absurd hf (formatNat_ne_nil _)
    | cons c cs =>
      have hc : isDigit c = true := formatNat_digits i.natAbs c (by
        rw [hf]
        exact List.mem_cons_self _ _)
      obtain ⟨h1, h2, _, h4, h5⟩ := isDigit_facts c hc
      rw [hf] at hs
      simp [skipSpace, h4, h5, scanInt, h1, h2, hs]

theorem formatInt_facts (i : Int) :
    '|' ∉ formatInt i ∧ '\n' ∉ formatInt i ∧
      ∃ c cs, formatInt i = c :: cs ∧ isSpace c = false := by
  have hd : ∀ c ∈ formatNat i.natAbs, c ≠ '|' ∧ c ≠ '\n' := fun c hc =>
    let h := isDigit_facts c (formatNat_digits _ c hc)
    ⟨h.2.2.1, h.2.2.2.1⟩
  have h1 : '|' ∉ formatNat i.natAbs := fun h => (hd _ h).1 rfl
  have h2 : '\n' ∉ formatNat i.natAbs := fun h => (hd _ h).2 rfl
  unfold formatInt
  by_cases hneg : i < 0
  · simp only [hneg, if_true]
    refine ⟨?_, ?_, '-', _, rfl, by decide⟩
    · simp only [List.mem_cons, not_or]
      exact ⟨by decide, h1⟩
    · simp only [List.mem_cons, not_or]
      exact ⟨by decide, h2⟩
  · simp only [hneg, if_false]
    refine ⟨h1, h2, ?_⟩
    cases hf : formatNat i.natAbs with
    | nil => exact absurd hf (formatNat_ne_nil _)
    | cons c cs =>
      have hc : c ∈ formatNat i.natAbs := by
        rw [hf]
        exact List.mem_cons_self _ _
      exact ⟨c, cs, rfl, (isDigit_facts c (formatNat_digits _ c hc)).2.2.2.2⟩

/-! ## `ListWindows` on a single line -/

theorem rdropWhile_append_cons (p : Char → Bool) (a b : Str) (x : Char) (hx : p x = false) :
    (a ++ x :: b).rdropWhile p = a ++ x :: b.rdropWhile p := by
  induction b using List.reverseRecOn with
  | nil =>
    have : a ++ [x] = a ++ [x] := rfl
    rw [List.rdropWhile_nil, List.rdropWhile_concat_neg]
    simp [hx]
  | append_singleton b c ih =>
    have hassoc : a ++ x :: (b ++ [c]) = (a ++ x :: b) ++ [c] := by simp
    by_cases hc : p c = true
    · rw [hassoc, List.rdropWhile_concat_pos _ _ _ hc, List.rdropWhile_concat_pos _ _ _ hc, ih]
    · rw [hassoc, List.rdropWhile_concat_neg _ _ _ hc, List.rdropWhile_concat_neg _ _ _ hc]
      simp

theorem rdropWhile_newline_tail (s : Str) (nl : Bool) :
    (s ++ (if nl then ['\n'] else [])).rdropWhile isSpace = s.rdropWhile isSpace := by
  cases nl with
  | false => simp
  | true =>
    simp only [if_true]
    exact List.rdropWhile_concat_pos _ _ _ (by decide)

theorem TrimSpace_windowLine (i : Int) (name paneID command : Str) (nl : Bool) :
    TrimSpace (windowLine i name paneID command nl) =
      formatInt i ++ '|' :: (name ++ '|' :: (paneID ++ '|' :: command.rdropWhile isSpace)) := by
  obtain ⟨_, _, c, cs, hf, hc⟩ := formatInt_facts i
  unfold TrimSpace windowLine
  have hdrop : ∀ rest : Str, (formatInt i ++ rest).dropWhile isSpace = formatInt i ++ rest := by
    intro rest
    rw [hf, List.cons_append, List.dropWhile_cons_of_neg (by simp [hc])]
  rw [hdrop, rdropWhile_append_cons _ _ _ _ isSpace_pipe,
    rdropWhile_append_cons _ _ _ _ isSpace_pipe, rdropWhile_append_cons _ _ _ _ isSpace_pipe,
    rdropWhile_newline_tail]

theorem SplitN_four (a b c d : Str) (ha : '|' ∉ a) (hb : '|' ∉ b) (hc : '|' ∉ c) :
    SplitN '|' 4 (a ++ '|' :: (b ++ '|' :: (c ++ '|' :: d))) = [a, b, c, d] := by
  simp [SplitN, Cut_append _ _ _ ha, Cut_append _ _ _ hb, Cut_append _ _ _ hc]

theorem not_mem_rdropWhile (p : Char → Bool) (x : Char) (s : Str) (h : x ∉ s) :
    x ∉ s.rdropWhile p :=
  fun hx => h (List.IsPrefix.subset ( List.rdropWhile_prefix p s) hx)

/-- C1 (as amended): when the output of `tmux list-windows` is a single line of four
fields separated by `|`, the first being the decimal text of an index `i` of the range of
`int`, and the second and third fields hold no `|` and no field holds a newline, then
`ListWindows` returns exactly one window: its index is `i`, its name and pane id are the
second and third fields, its session is the given one, and its command is the fourth
field without its trailing white space; so the command is the fourth field itself
whenever that field does not end with white space. -/
theorem ListWindows_single_line (env : Env) (session : Str) (i : Int)
    (name paneID command : Str) (nl : Bool)
    (hi : - (2 : Int) ^ 63 ≤ i ∧ i < (2 : Int) ^ 63)
    (hname : '|' ∉ name ∧ '\n' ∉ name) (hpane : '|' ∉ paneID ∧ '\n' ∉ paneID)
    (hcmd : '\n' ∉ command)
    (hrun : run env (listWindowsArgs session) = .ok (windowLine i name paneID command nl)) :
    ListWindows env session =
        .ok [{ Session := session, Index := i, Name := name, PaneID := paneID,
               Command := command.rdropWhile isSpace }] ∧
      ((∀ hne : command ≠ [], isSpace (command.getLast hne) = false) →
        ListWindows env session =
          .ok [{ Session := session, Index := i, Name := name, PaneID := paneID,
                 Command := command }]) := by
  obtain ⟨hfp, hfn, c, cs, hf, _⟩ := formatInt_facts i
  have hmain : ListWindows env session =
      .ok [{ Session := session, Index := i, Name := name, PaneID := paneID,
             Command := command.rdropWhile isSpace }] := by
    unfold ListWindows
    rw [hrun]
    simp only [TrimSpace_windowLine]
    have hnl : '\n' ∉ formatInt i ++ '|' :: (name ++ '|' :: (paneID ++ '|' ::
        command.rdropWhile isSpace)) := by
      have h4 := not_mem_rdropWhile isSpace '\n' command hcmd
      simp only [List.mem_append, List.mem_cons, not_or]
      exact ⟨hfn, by decide, hname.2, by decide, hpane.2, by decide, h4⟩
    rw [Split_of_not_mem _ _ hnl]
    have hne : formatInt i ++ '|' :: (name ++ '|' :: (paneID ++ '|' ::
        command.rdropWhile isSpace)) ≠ [] := by
      rw [hf]
      simp
    simp only [List.foldl_cons, List.foldl_nil, listWindowsStep, hne, if_false,
      SplitN_four _ _ _ _ hfp hname.1 hpane.1]
    simp [SscanfInt_formatInt i hi]
  refine ⟨hmain, ?_⟩
  intro hlast
  rw [hmain, List.rdropWhile_eq_self_iff.2 (fun hne => by simp [hlast hne])]

/-- Witness for C1: the output `3|editor|%7|vim` gives the one window of index 3. -/
theorem ListWindows_single_line_witness :
    ListWindows oneWindowEnv "s".toList =
      .ok [{ Session := "s".toList, Index := 3, Name := "editor".toList,
             PaneID := "%7".toList, Command := "vim".toList }] :=
  (ListWindows_single_line oneWindowEnv "s".toList 3 "editor".toList "%7".toList
    "vim".toList true (by decide) (by decide) (by decide) (by decide) (by rfl)).2
    (fun _ => rfl)

/-- Counterexample for C1 as stated: the output is the single line `0|main|%0|vim `, whose
fourth field is `vim` followed by a space; the command of the returned window is `vim`,
which is not the fourth field. -/
theorem ListWindows_trims_command :
    run trailingSpaceEnv (listWindowsArgs "s".toList) =
        .ok (windowLine 0 "main".toList "%0".toList "vim ".toList true) ∧
      ListWindows trailingSpaceEnv "s".toList =
        .ok [{ Session := "s".toList, Index := 0, Name := "main".toList,
               PaneID := "%0".toList, Command := "vim".toList }] ∧
      "vim".toList ≠ "vim ".toList := by
  refine ⟨by rfl, by rfl, by decide⟩

/-! ## `ListWindows` on arbitrary output -/

theorem foldl_listWindowsStep (session : Str) (lines : List Str) (acc : List Window) :
    lines.foldl (listWindowsStep session) acc = acc ++ lines.filterMap (parseLine session) := by
  induction lines generalizing acc with
  | nil => simp
  | cons line rest ih =>
    rw [List.foldl_cons, ih]
    by_cases h1 : line = []
    · simp [listWindowsStep, parseLine, h1]
    · by_cases h2 : (SplitN '|' 4 line).length < 4
      · simp [listWindowsStep, parseLine, h1, h2]
      · simp [listWindowsStep, parseLine, h1, h2]

theorem parseLine_entry (session : Str) (line : Str) :
    (parseLine session line).map (fun w => (w.Name, w.PaneID)) = lineEntry line := by
  unfold parseLine lineEntry
  cases h1 : Cut '|' line with
  | none =>
    have e1 : Split '|' line = [line] := by rw [Split_eq_cut, h1]
    rw [e1]
    by_cases hl : line = [] <;> simp [SplitN, h1, hl]
  | some ab =>
    obtain ⟨a, r1⟩ := ab
    have hl : line ≠ [] := by
      rintro rfl
      simp [Cut] at h1
    have e1 : Split '|' line = a :: Split '|' r1 := by rw [Split_eq_cut, h1]
    cases h2 : Cut '|' r1 with
    | none =>
      have e2 : Split '|' r1 = [r1] := by rw [Split_eq_cut, h2]
      rw [e1, e2]
      simp [SplitN, h1, h2, hl]
    | some bc =>
      obtain ⟨b, r2⟩ := bc
      have e2 : Split '|' r1 = b :: Split '|' r2 := by rw [Split_eq_cut, h2]
      cases h3 : Cut '|' r2 with
      | none =>
        have e3 : Split '|' r2 = [r2] := by rw [Split_eq_cut, h3]
        rw [e1, e2, e3]
        simp [SplitN, h1, h2, h3, hl]
      | some cd =>
        obtain ⟨c, r3⟩ := cd
        have e3 : Split '|' r2 = c :: Split '|' r3 := by rw [Split_eq_cut, h3]
        have hne := Split_ne_nil '|' r3
        rw [e1, e2, e3]
        cases hs : Split '|' r3 with
        | nil => exact absurd hs hne
        | cons x xs => simp [SplitN, h1, h2, h3, hl]

theorem lineEntry_nil : lineEntry [] = none := by decide

theorem lineEntry_cons (c : Char) (l : Str) (hc : c ≠ '|') :
    lineEntry (c :: l) = lineEntry l := by
  unfold lineEntry
  have hne := Split_ne_nil '|' l
  cases hs : Split '|' l with
  | nil => exact absurd hs hne
  | cons h t => simp [Split, hc, hs]

theorem filterMap_Split_cons (c : Char) (s : Str) (hc : isSpace c = true) :
    (Split '\n' (c :: s)).filterMap lineEntry = (Split '\n' s).filterMap lineEntry := by
  by_cases hnl : c = '\n'
  · simp [Split, hnl, lineEntry_nil]
  · have hp : c ≠ '|' := by
      rintro rfl
      rw [isSpace_pipe] at hc
      cases hc
    have hne := Split_ne_nil '\n' s
    cases hs : Split '\n' s with
    | nil => exact absurd hs hne
    | cons h t =>
      rw [Split, if_neg hnl, hs]
      simp only [List.filterMap_cons, lineEntry_cons c h hp]

theorem filterMap_Split_dropWhile (s : Str) :
    (Split '\n' (s.dropWhile isSpace)).filterMap lineEntry =
      (Split '\n' s).filterMap lineEntry := by
  induction s with
  | nil => rfl
  | cons c cs ih =>
    by_cases hc : isSpace c = true
    · rw [List.dropWhile_cons_of_pos hc, ih, filterMap_Split_cons c cs hc]
    · rw [List.dropWhile_cons_of_neg hc]

theorem Split_concat (sep : Char) (s : Str) (c : Char) :
    ∃ init last, Split sep s = init ++ [last] ∧
      Split sep (s ++ [c]) = if c = sep then init ++ [last, []] else init ++ [last ++ [c]] := by
  induction s with
  | nil =>
    refine ⟨[], [], rfl, ?_⟩
    by_cases hc : c = sep <;> simp [Split, hc]
  | cons d s ih =>
    obtain ⟨init, last, h1, h2⟩ := ih
    by_cases hd : d = sep
    · refine ⟨[] :: init, last, by simp [Split, hd, h1], ?_⟩
      by_cases hc : c = sep
      · rw [if_pos hc] at h2
        rw [if_pos hc, List.cons_append, Split, if_pos hd, h2]
        rfl
      · rw [if_neg hc] at h2
        rw [if_neg hc, List.cons_append, Split, if_pos hd, h2]
        rfl
    · cases init with
      | nil =>
        refine ⟨[], d :: last, by simp [Split, hd, h1], ?_⟩
        by_cases hc : c = sep
        · rw [if_pos hc] at h2
          rw [if_pos hc, List.cons_append, Split, if_neg hd, h2]
          rfl
        · rw [if_neg hc] at h2
          rw [if_neg hc, List.cons_append, Split, if_neg hd, h2]
          rfl
      | cons i0 init' =>
        refine ⟨(d :: i0) :: init', last, by simp [Split, hd, h1], ?_⟩
        by_cases hc : c = sep
        · rw [if_pos hc] at h2
          rw [if_pos hc, List.cons_append, Split, if_neg hd, h2]
          rfl
        · rw [if_neg hc] at h2
          rw [if_neg hc, List.cons_append, Split, if_neg hd, h2]
          rfl

theorem lineEntry_concat (l : Str) (c : Char) (hc : c ≠ '|') :
    lineEntry (l ++ [c]) = lineEntry l := by
  obtain ⟨init, last, h1, h2⟩ := Split_concat '|' l c
  rw [if_neg hc] at h2
  unfold lineEntry
  rw [h1, h2]
  simp only [List.length_append, List.length_singleton]
  by_cases hlen : 4 ≤ init.length + 1
  · have h3 : 3 ≤ init.length := by omega
    simp only [hlen, if_true, List.getD_eq_getElem?_getD]
    rw [List.getElem?_append_left (by omega), List.getElem?_append_left (by omega),
      List.getElem?_append_left (by omega), List.getElem?_append_left (by omega)]
  · simp [hlen]

theorem filterMap_Split_concat (s : Str) (c : Char) (hc : isSpace c = true) :
    (Split '\n' (s ++ [c])).filterMap lineEntry = (Split '\n' s).filterMap lineEntry := by
  obtain ⟨init, last, h1, h2⟩ := Split_concat '\n' s c
  rw [h1, h2]
  by_cases hnl : c = '\n'
  · rw [if_pos hnl]
    simp only [List.filterMap_append, List.filterMap_cons, lineEntry_nil, List.filterMap_nil]
  · have hp : c ≠ '|' := by
      rintro rfl
      rw [isSpace_pipe] at hc
      cases hc
    rw [if_neg hnl]
    simp only [List.filterMap_append, List.filterMap_cons, lineEntry_concat last c hp]

theorem filterMap_Split_rdropWhile (s : Str) :
    (Split '\n' (s.rdropWhile isSpace)).filterMap lineEntry =
      (Split '\n' s).filterMap lineEntry := by
  induction s using List.reverseRecOn with
  | nil => rfl
  | append_singleton s c ih =>
    by_cases hc : isSpace c = true
    · rw [List.rdropWhile_concat_pos _ _ _ hc, ih, filterMap_Split_concat s c hc]
    · rw [List.rdropWhile_concat_neg _ _ _ hc]

theorem filterMap_Split_TrimSpace (s : Str) :
    (Split '\n' (TrimSpace s)).filterMap lineEntry = (Split '\n' s).filterMap lineEntry := by
  unfold TrimSpace
  rw [filterMap_Split_rdropWhile, filterMap_Split_dropWhile]

theorem filterMap_lineEntry_length (lines : List Str) :
    (lines.filterMap lineEntry).length =
      (lines.filter (fun l => decide (4 ≤ (Split '|' l).length))).length := by
  induction lines with
  | nil => rfl
  | cons l rest ih =>
    by_cases h : 4 ≤ (Split '|' l).length
    · simp [List.filterMap_cons, lineEntry, h, ih]
    · simp [List.filterMap_cons, lineEntry, h, ih]

/-- C6: whenever the `tmux list-windows` query succeeds, `ListWindows` returns no error,
whatever the lines look like, and returns one window for each line of the output that has
at least four pipe-delimited fields, in the order of the lines (the name and the pane id
of the window being the second and third field of its line), and no window for a line
with fewer than four fields. -/
theorem ListWindows_lines (env : Env) (session out : Str)
    (hrun : run env (listWindowsArgs session) = .ok out) :
    ∃ ws, ListWindows env session = .ok ws ∧
      ws.map (fun w => (w.Name, w.PaneID)) = (Split '\n' out).filterMap lineEntry ∧
      ws.length =
        ((Split '\n' out).filter (fun l => decide (4 ≤ (Split '|' l).length))).length ∧
      ∀ w ∈ ws, w.Session = session := by
  have hmap : ((Split '\n' (TrimSpace out)).filterMap (parseLine session)).map
      (fun w => (w.Name, w.PaneID)) = (Split '\n' out).filterMap lineEntry := by
    rw [List.map_filterMap]
    have hfun : (fun line => (parseLine session line).map (fun w => (w.Name, w.PaneID))) =
        lineEntry := funext (parseLine_entry session)
    rw [hfun, filterMap_Split_TrimSpace]
  refine ⟨(Split '\n' (TrimSpace out)).filterMap (parseLine session), ?_, hmap, ?_, ?_⟩
  · unfold ListWindows
    rw [hrun]
    simp [foldl_listWindowsStep]
  · rw [← filterMap_lineEntry_length, ← hmap, List.length_map]
  · intro w hw
    obtain ⟨line, _, hline⟩ := List.mem_filterMap.1 hw
    unfold parseLine at hline
    by_cases h1 : line = []
    · simp [h1] at hline
    · by_cases h2 : (SplitN '|' 4 line).length < 4
      · simp [h1, h2] at hline
      · simp only [h1, h2, if_false, Option.some.injEq] at hline
        rw [← hline]

/-- Witness for C6: of the lines of the listing of `mixedEnv`, the empty lines, `broken`
and `1|two|%1` give no window, and the two lines with at least four fields give the
windows `main` and `editor`, in this order. -/
theorem ListWindows_lines_witness :
    (match ListWindows mixedEnv "s".toList with
      | .ok ws => ws.map (fun w => (w.Name, w.PaneID))
      | .error _ => []) =
      [("main".toList, "%0".toList), ("editor".toList, "%3".toList)] := by
  obtain ⟨ws, h1, h2, _, _⟩ := ListWindows_lines mixedEnv "s".toList
    "\n0|main|%0|zsh\nbroken\n1|two|%1\n\n7|editor|%3|vim|x\n".toList (by rfl)
  rw [h1]
  exact h2.trans (by decide)

/-! ## `IsClaudeRunning` in a shell window -/

theorem Fields_cons_space (c : Char) (cs : Str) (hc : isSpace c = true) :
    Fields (c :: cs) = Fields cs := by
  simp [Fields, hc]

theorem Fields_dropWhile (s : Str) : Fields (s.dropWhile isSpace) = Fields s := by
  induction s with
  | nil => rfl
  | cons c cs ih =>
    by_cases hc : isSpace c = true
    · rw [List.dropWhile_cons_of_pos hc, ih, Fields_cons_space c cs hc]
    · rw [List.dropWhile_cons_of_neg hc]

theorem Fields_concat (s : Str) (c : Char) (hc : isSpace c = true) :
    Fields (s ++ [c]) = Fields s := by
  induction s with
  | nil => simp [Fields, hc]
  | cons x xs ih =>
    by_cases hx : isSpace x = true
    · rw [List.cons_append, Fields_cons_space x _ hx, Fields_cons_space x _ hx, ih]
    · cases xs with
      | nil => simp [Fields, hx, hc]
      | cons d ds =>
        rw [List.cons_append] at ih ⊢
        rw [List.cons_append]
        by_cases hd : isSpace d = true
        · simp only [Fields, hx, hd, if_true] at ih ⊢
          rw [ih]
        · have hl : Fields (x :: d :: (ds ++ [c])) =
              match Fields (d :: (ds ++ [c])) with
              | [] => [[x]]
              | h :: t => (x :: h) :: t := by
            rw [Fields]
            simp only [hx, hd]
            rfl
          have hr : Fields (x :: d :: ds) =
              match Fields (d :: ds) with
              | [] => [[x]]
              | h :: t => (x :: h) :: t := by
            rw [Fields]
            simp only [hx, hd]
            rfl
          rw [hl, hr, ih]

theorem Fields_rdropWhile (s : Str) : Fields (s.rdropWhile isSpace) = Fields s := by
  induction s using List.reverseRecOn with
  | nil => rfl
  | append_singleton s c ih =>
    by_cases hc : isSpace c = true
    · rw [List.rdropWhile_concat_pos _ _ _ hc, ih, Fields_concat s c hc]
    · rw [List.rdropWhile_concat_neg _ _ _ hc]

theorem Fields_TrimSpace (s : Str) : Fields (TrimSpace s) = Fields s := by
  unfold TrimSpace
  rw [Fields_rdropWhile, Fields_dropWhile]

theorem hasClaudeChildLoop_iff (lines : List Str) :
    hasClaudeChildLoop lines = true ↔ ∃ line ∈ lines, ReportsClaude line := by
  induction lines with
  | nil => simp [hasClaudeChildLoop]
  | cons line rest ih =>
    have hF := Fields_TrimSpace line
    simp only [List.mem_cons, exists_eq_or_imp]
    by_cases h1 : TrimSpace line = []
    · have hnot : ¬ ReportsClaude line := by
        unfold ReportsClaude
        rw [← hF, h1]
        simp [Fields]
      simp only [hasClaudeChildLoop, h1, if_true, ih]
      exact ⟨fun h => Or.inr h, fun h => h.resolve_left hnot⟩
    · by_cases h2 : (Fields (TrimSpace line)).length ≥ 2
      · have hget : (Fields line)[1]? = some ((Fields (TrimSpace line)).getD 1 []) := by
          rw [← hF, List.getD_eq_getElem?_getD, List.getElem?_eq_getElem (by omega)]
          rfl
        by_cases h3 : (Fields (TrimSpace line)).getD 1 [] = "node".toList ∨
            (Fields (TrimSpace line)).getD 1 [] = "claude".toList
        · have hyes : ReportsClaude line := by
            unfold ReportsClaude
            rw [hget]
            rcases h3 with h3 | h3
            · exact Or.inl (by rw [h3])
            · exact Or.inr (by rw [h3])
          simp only [hasClaudeChildLoop, h1, if_false, h2, if_true, h3]
          exact ⟨fun _ => Or.inl hyes, fun _ => trivial⟩
        · have hnot : ¬ ReportsClaude line := by
            unfold ReportsClaude
            rw [hget]
            rintro (h | h)
            · exact h3 (Or.inl (Option.some.inj h))
            · exact h3 (Or.inr (Option.some.inj h))
          simp only [hasClaudeChildLoop, h1, if_false, h2, if_true, h3, ih]
          exact ⟨fun h => Or.inr h, fun h => h.resolve_left hnot⟩
      · have hnot : ¬ ReportsClaude line := by
          unfold ReportsClaude
          rw [← hF, List.getElem?_eq_none (by omega)]
          simp
        simp only [hasClaudeChildLoop, h1, if_false, h2, ih]
        exact ⟨fun h => Or.inr h, fun h => h.resolve_left hnot⟩

theorem hasClaudeChild_iff (env : Env) (pid : Str) :
    hasClaudeChild env pid = true ↔
      ∃ out, env.exec "pgrep".toList (pgrepArgs pid) = .ok out ∧
        ∃ line ∈ Split '\n' out, ReportsClaude line := by
  unfold hasClaudeChild
  cases h : env.exec "pgrep".toList (pgrepArgs pid) with
  | ok out => simp [hasClaudeChildLoop_iff]
  | exitError e => simp
  | failed m => simp

theorem shellLoop_of_mem (env : Env) (w : Window) (cmd : Str) (shells : List Str)
    (h : cmd ∈ shells) :
    shellLoop env w cmd shells =
      if getPanePID env w.PaneID ≠ [] then hasClaudeChild env (getPanePID env w.PaneID)
      else false := by
  induction shells with
  | nil => simp at h
  | cons shell rest ih =>
    by_cases hc : cmd = shell
    · simp [shellLoop, hc]
    · have hr : cmd ∈ rest := by
        rcases List.mem_cons.1 h with h | h
        · exact absurd h hc
        · exact h
      simp only [shellLoop, hc, if_false, ih hr]

theorem shellLoop_of_not_mem (env : Env) (w : Window) (cmd : Str) (shells : List Str)
    (h : cmd ∉ shells) : shellLoop env w cmd shells = false := by
  induction shells with
  | nil => rfl
  | cons shell rest ih =>
    have hc : ¬ cmd = shell := fun e => h (by simp [e])
    have hr : cmd ∉ rest := fun e => h (by simp [e])
    simp only [shellLoop, hc, if_false, ih hr]

theorem shells_not_direct :
    ∀ s ∈ supportedShells,
      ¬ (s = "node".toList ∨ s = "claude".toList) ∧ MatchString versionPattern s = false := by
  decide

theorem getPanePID_ne_nil_iff (env : Env) (paneID : Str) :
    getPanePID env paneID ≠ [] ↔
      ∃ pidOut, run env (listPanesArgs paneID) = .ok pidOut ∧ TrimSpace pidOut ≠ [] := by
  unfold getPanePID
  cases h : run env (listPanesArgs paneID) with
  | error e => simp
  | ok out => simp

/-- C10: for a window whose command is one of the recognized shell names,
`IsClaudeRunning` is true exactly when the list-panes query of tmux for the pane of the
window (format `#{pane_pid}`) succeeds with a non-empty trimmed output (the pid), the
child-process listing `pgrep -P <that pid> -l` succeeds, and some line of the listing has
`node` or `claude` as its second white-space-separated field; so it is false when no pid
is obtained. -/
theorem IsClaudeRunning_shell (env : Env) (w : Window) (hshell : w.Command ∈ supportedShells) :
    IsClaudeRunning env w = true ↔
      ∃ pidOut,
        env.exec "tmux".toList ["list-panes".toList, "-t".toList, w.PaneID, "-F".toList,
          "#{pane_pid}".toList] = .ok pidOut ∧
        TrimSpace pidOut ≠ [] ∧
        ∃ out,
          env.exec "pgrep".toList ["-P".toList, TrimSpace pidOut, "-l".toList] = .ok out ∧
          ∃ line ∈ Split '\n' out, ReportsClaude line := by
  obtain ⟨hd, hv⟩ := shells_not_direct w.Command hshell
  have hrun : IsClaudeRunning env w =
      if getPanePID env w.PaneID ≠ [] then hasClaudeChild env (getPanePID env w.PaneID)
      else false := by
    unfold IsClaudeRunning
    simp only [hd, if_false, hv, Bool.false_eq_true]
    exact shellLoop_of_mem env w w.Command supportedShells hshell
  rw [hrun]
  constructor
  · intro h
    by_cases hp : getPanePID env w.PaneID ≠ []
    · rw [if_pos hp] at h
      obtain ⟨pidOut, hr, hne⟩ := (getPanePID_ne_nil_iff env w.PaneID).1 hp
      have hpid : getPanePID env w.PaneID = TrimSpace pidOut := by
        unfold getPanePID
        rw [hr]
      rw [hpid] at h
      exact ⟨pidOut, (run_eq_ok_iff env _ pidOut).1 hr, hne, (hasClaudeChild_iff env _).1 h⟩
    · rw [if_neg hp] at h
      cases h
  · rintro ⟨pidOut, hr, hne, hchild⟩
    have hr' : run env (listPanesArgs w.PaneID) = .ok pidOut :=
      (run_eq_ok_iff env _ pidOut).2 hr
    have hpid : getPanePID env w.PaneID = TrimSpace pidOut := by
      unfold getPanePID
      rw [hr']
    rw [hpid, if_pos hne]
    exact (hasClaudeChild_iff env _).2 hchild

/-- Witness for C10: a `zsh` window in the pane `%0`, whose pid 123 has a child `node`;
the same window is not detected when the pane id is one whose list-panes query fails. -/
theorem IsClaudeRunning_shell_witness :
    IsClaudeRunning paneEnv ⟨"s".toList, 0, "main".toList, "%0".toList, "zsh".toList⟩ = true ∧
      IsClaudeRunning paneEnv ⟨"s".toList, 0, "main".toList, "%9".toList, "zsh".toList⟩ =
        false :=
  ⟨(IsClaudeRunning_shell paneEnv ⟨"s".toList, 0, "main".toList, "%0".toList, "zsh".toList⟩
      (by decide)).2
      ⟨"123\n".toList, by rfl, by decide, "150 vim\n 200 node \n".toList, by rfl,
        " 200 node ".toList, by decide, Or.inl (by decide)⟩,
    by rfl⟩

/-! ## Facts about the matcher -/

theorem matchStar_iff (k : CharClass) (cont : Bool → Str → Bool) (st : Bool) (s : Str) :
    matchStar k cont st s = true ↔
      ∃ pre post, s = pre ++ post ∧ (∀ c ∈ pre, k.accepts c = true) ∧
        cont (if pre = [] then st else false) post = true := by
  induction s generalizing st with
  | nil =>
    simp only [matchStar]
    constructor
    · intro h
      exact ⟨[], [], rfl, by simp, by simpa using h⟩
    · rintro ⟨pre, post, heq, _, hc⟩
      have hpre : pre = [] := (List.append_eq_nil.1 heq.symm).1
      have hpost : post = [] := (List.append_eq_nil.1 heq.symm).2
      subst hpre hpost
      simpa using hc
  | cons x xs ih =>
    simp only [matchStar, Bool.or_eq_true, Bool.and_eq_true]
    constructor
    · rintro (h | ⟨hx, h⟩)
      · exact ⟨[], x :: xs, rfl, by simp, by simpa using h⟩
      · obtain ⟨pre, post, heq, hall, hc⟩ := (ih false).1 h
        refine ⟨x :: pre, post, by simp [heq], ?_, ?_⟩
        · intro c hcm
          rcases List.mem_cons.1 hcm with rfl | hcm
          · exact hx
          · exact hall c hcm
        · have : (if pre = [] then false else false) = false := by split <;> rfl
          rw [this] at hc
          simpa using hc
    · rintro ⟨pre, post, heq, hall, hc⟩
      cases pre with
      | nil =>
        left
        simp only [List.nil_append] at heq
        rw [heq]
        simpa using hc
      | cons y pre' =>
        right
        simp only [List.cons_append, List.cons.injEq] at heq
        obtain ⟨rfl, hxs⟩ := heq
        refine ⟨hall x (by simp), (ih false).2 ⟨pre', post, hxs, ?_, ?_⟩⟩
        · exact fun c hcm => hall c (by simp [hcm])
        · have : (if pre' = [] then false else false) = false := by split <;> rfl
          rw [this]
          simpa using hc

theorem matchHere_plus_iff (k : CharClass) (is : List Inst) (st : Bool) (s : Str) :
    matchHere (.plus k :: is) st s = true ↔
      ∃ pre post, pre ≠ [] ∧ s = pre ++ post ∧ (∀ c ∈ pre, k.accepts c = true) ∧
        matchHere is false post = true := by
  cases s with
  | nil =>
    simp only [matchHere]
    constructor
    · intro h
      cases h
    · rintro ⟨pre, post, hne, heq, _⟩
      exact absurd (List.append_eq_nil.1 heq.symm).1 hne
  | cons x xs =>
    simp only [matchHere, Bool.and_eq_true, matchStar_iff]
    constructor
    · rintro ⟨hx, pre, post, heq, hall, hc⟩
      refine ⟨x :: pre, post, by simp, by simp [heq], ?_, ?_⟩
      · intro c hcm
        rcases List.mem_cons.1 hcm with rfl | hcm
        · exact hx
        · exact hall c hcm
      · have : (if pre = [] then false else false) = false := by split <;> rfl
        rw [this] at hc
        exact hc
    · rintro ⟨pre, post, hne, heq, hall, hc⟩
      cases pre with
      | nil => exact absurd rfl hne
      | cons y pre' =>
        simp only [List.cons_append, List.cons.injEq] at heq
        obtain ⟨rfl, hxs⟩ := heq
        refine ⟨hall x (by simp), pre', post, hxs, fun c hcm => hall c (by simp [hcm]), ?_⟩
        have : (if pre' = [] then false else false) = false := by split <;> rfl
        rw [this]
        exact hc

theorem matchHere_lit_iff (c : Char) (is : List Inst) (st : Bool) (s : Str) :
    matchHere (.one (.lit c) :: is) st s = true ↔
      ∃ post, s = c :: post ∧ matchHere is false post = true := by
  cases s with
  | nil => simp [matchHere]
  | cons x xs =>
    simp only [matchHere, CharClass.accepts, Bool.and_eq_true, beq_iff_eq, List.cons.injEq]
    constructor
    · rintro ⟨rfl, h⟩
      exact ⟨xs, ⟨rfl, rfl⟩, h⟩
    · rintro ⟨post, ⟨rfl, rfl⟩, h⟩
      exact ⟨rfl, h⟩

theorem matchHere_endText_iff (st : Bool) (s : Str) :
    matchHere [.endText] st s = true ↔ s = [] := by
  cases s <;> simp [matchHere]

theorem searchFrom_beginText (is : List Inst) (s : Str) :
    searchFrom (.beginText :: is) false s = false := by
  induction s with
  | nil => simp [searchFrom, matchHere]
  | cons x xs ih => simp [searchFrom, matchHere, ih]

theorem MatchString_beginText (is : List Inst) (s : Str) :
    MatchString (.beginText :: is) s = matchHere is true s := by
  unfold MatchString
  cases s with
  | nil => simp [searchFrom, matchHere]
  | cons x xs => simp [searchFrom, matchHere, searchFrom_beginText]

theorem versionPattern_eq :
    versionPattern =
      [.beginText, .plus .digit, .one (.lit '.'), .plus .digit, .one (.lit '.'),
        .plus .digit, .endText] := by
  decide

theorem MatchString_versionPattern (s : Str) :
    MatchString versionPattern s = true ↔ IsVersion s := by
  rw [versionPattern_eq, MatchString_beginText, matchHere_plus_iff]
  simp only [matchHere_lit_iff, matchHere_plus_iff, matchHere_endText_iff, CharClass.accepts]
  unfold IsVersion
  constructor
  · rintro ⟨a, r1, ha, hs, hda, r2, hr1, b, r3, hb, hr2, hdb, r4, hr3, c, r5, hc, hr4, hdc, hr5⟩
    refine ⟨a, b, c, ha, hb, hc, hda, hdb, hdc, ?_⟩
    rw [hs, hr1, hr2, hr3, hr4, hr5]
    simp
  · rintro ⟨a, b, c, ha, hb, hc, hda, hdb, hdc, hs⟩
    exact ⟨a, '.' :: (b ++ '.' :: c), ha, hs, hda, b ++ '.' :: c, rfl, b, '.' :: c, hb, rfl,
      hdb, c, rfl, c, [], hc, by simp, hdc, rfl⟩

/-! ## `IsClaudeRunning` outside a shell -/

/-- C2: for a window whose command is not one of the recognized shell names,
`IsClaudeRunning` is true if and only if the command is exactly `node`, exactly `claude`,
or three non-empty runs of decimal digits separated by single dots with nothing before or
after (a full match of `^\d+\.\d+\.\d+$`). -/
theorem IsClaudeRunning_not_shell (env : Env) (w : Window)
    (hshell : w.Command ∉ supportedShells) :
    IsClaudeRunning env w = true ↔
      w.Command = "node".toList ∨ w.Command = "claude".toList ∨ IsVersion w.Command := by
  unfold IsClaudeRunning
  simp only []
  rw [shellLoop_of_not_mem env w w.Command supportedShells hshell]
  by_cases h1 : w.Command = "node".toList ∨ w.Command = "claude".toList
  · simp only [h1, if_true, true_iff]
    rcases h1 with h | h
    · exact Or.inl h
    · exact Or.inr (Or.inl h)
  · simp only [h1, if_false]
    rw [← MatchString_versionPattern]
    by_cases h2 : MatchString versionPattern w.Command = true
    · simp only [h2, if_true, true_iff]
      exact Or.inr (Or.inr trivial)
    · simp only [h2, if_false, Bool.false_eq_true, false_iff]
      rintro (h | h | h)
      · exact h1 (Or.inl h)
      · exact h1 (Or.inr h)
      · exact h

/-- Witness for C2: the command `vim` is not detected and the command `2.0.76` is. -/
theorem IsClaudeRunning_not_shell_witness :
    ¬ (IsClaudeRunning shellEnv ⟨"s".toList, 1, "editor".toList, "%1".toList, "vim".toList⟩
        = true) ∧
      IsClaudeRunning shellEnv ⟨"s".toList, 2, "ai".toList, "%2".toList, "2.0.76".toList⟩
        = true :=
  ⟨fun h => by
      have hv := (IsClaudeRunning_not_shell shellEnv
        ⟨"s".toList, 1, "editor".toList, "%1".toList, "vim".toList⟩ (by decide)).1 h
      rcases hv with hv | hv | hv
      · exact absurd hv (by decide)
      · exact absurd hv (by decide)
      · exact absurd ((MatchString_versionPattern _).2 hv) (by decide),
    (IsClaudeRunning_not_shell shellEnv
      ⟨"s".toList, 2, "ai".toList, "%2".toList, "2.0.76".toList⟩ (by decide)).2
      (Or.inr (Or.inr ⟨"2".toList, "0".toList, "76".toList, by decide, by decide, by decide,
        by decide, by decide, by decide, by decide⟩))⟩

/-! ## Facts about UTF-8 -/

theorem char_valid (c : Char) :
    c.toNat < 0xD800 ∨ (0xDFFF < c.toNat ∧ c.toNat < 0x110000) := by
  have h := c.valid
  simp only [UInt32.isValidChar, Nat.isValidChar] at h
  exact h

theorem toNat_ofNat_valid (n : Nat) (h : n < 0xD800 ∨ (0xDFFF < n ∧ n < 0x110000)) :
    (Char.ofNat n).toNat = n := by
  have hv : n.isValidChar := h
  rw [Char.ofNat, dif_pos hv]
  simp [Char.ofNatAux, Char.toNat, UInt32.toNat]

theorem ofNat_eq_of_toNat (c : Char) (n : Nat) (h : c.toNat = n) : c = Char.ofNat n := by
  rw [← h, Char.ofNat_toNat]

theorem decodeRune_encodeRune (c : Char) (rest : Bytes) :
    decodeRune (encodeRune c ++ rest) = (c, (encodeRune c).length) := by
  have hv := char_valid c
  unfold encodeRune
  simp only []
  by_cases h1 : c.toNat < 0x80
  · simp only [h1, if_true, List.cons_append, List.nil_append, decodeRune, List.length_singleton,
      Char.ofNat_toNat]
  · by_cases h2 : c.toNat < 0x800
    · simp only [h1, h2, if_true, if_false, List.cons_append, List.nil_append, decodeRune]
      rw [if_neg (by omega), if_pos (by omega), if_pos (by omega)]
      have hval : (0xC0 + c.toNat / 64 - 0xC0) * 64 + (0x80 + c.toNat % 64 - 0x80) = c.toNat := by
        omega
      rw [hval, Char.ofNat_toNat]
      rfl
    · by_cases h3 : c.toNat < 0x10000
      · simp only [h1, h2, h3, if_true, if_false, List.cons_append, List.nil_append, decodeRune]
        rw [if_neg (by omega), if_neg (by omega), if_pos (by omega), if_pos (by
          refine ⟨?_, ?_, ?_, ?_⟩
          · split <;> omega
          · split <;> omega
          · omega
          · omega)]
        have hval : (0xE0 + c.toNat / 4096 - 0xE0) * 4096 +
            (0x80 + c.toNat / 64 % 64 - 0x80) * 64 + (0x80 + c.toNat % 64 - 0x80) =
            c.toNat := by
          omega
        rw [hval, Char.ofNat_toNat]
        rfl
      · simp only [h1, h2, h3, if_false, List.cons_append, List.nil_append, decodeRune]
        rw [if_neg (by omega), if_neg (by omega), if_neg (by omega), if_pos (by omega),
          if_pos (by
            refine ⟨?_, ?_, ?_, ?_, ?_, ?_⟩
            · split <;> omega
            · split <;> omega
            · omega
            · omega
            · omega
            · omega)]
        have hval : (0xF0 + c.toNat / 262144 - 0xF0) * 262144 +
            (0x80 + c.toNat / 4096 % 64 - 0x80) * 4096 +
            (0x80 + c.toNat / 64 % 64 - 0x80) * 64 + (0x80 + c.toNat % 64 - 0x80) =
            c.toNat := by
          omega
        rw [hval, Char.ofNat_toNat]
        rfl

theorem encodeRune_cases (c : Char) :
    (c.toNat < 0x80 ∧ encodeRune c = [c.toNat]) ∨
      (0x80 ≤ c.toNat ∧ ∀ b ∈ encodeRune c, 0x80 ≤ b) := by
  unfold encodeRune
  simp only []
  by_cases h1 : c.toNat < 0x80
  · left
    simp [h1]
  · right
    refine ⟨by omega, ?_⟩
    by_cases h2 : c.toNat < 0x800
    · simp only [h1, h2, if_true, if_false, List.mem_cons, List.mem_singleton, List.mem_nil_iff,
        or_false]
      rintro b (rfl | rfl) <;> omega
    · by_cases h3 : c.toNat < 0x10000
      · simp only [h1, h2, h3, if_true, if_false, List.mem_cons, List.mem_singleton,
          List.mem_nil_iff, or_false]
        rintro b (rfl | rfl | rfl) <;> omega
      · simp only [h1, h2, h3, if_false, List.mem_cons, List.mem_singleton, List.mem_nil_iff,
          or_false]
        rintro b (rfl | rfl | rfl | rfl) <;> omega

theorem encodeRune_ne_nil (c : Char) : encodeRune c ≠ [] := by
  unfold encodeRune
  simp only []
  split_ifs <;> simp

theorem encodeRune_not_error (c : Char) : ¬ (c = RuneError ∧ (encodeRune c).length = 1) := by
  rintro ⟨rfl, h⟩
  revert h
  decide

theorem runesFrom_skip (pre rest : Bytes) :
    runesFrom pre.length (pre ++ rest) = runesFrom 0 rest := by
  induction pre with
  | nil => rfl
  | cons b bs ih => exact ih

theorem nextRunes_skip (pre rest : Bytes) :
    nextRunes pre.length (pre ++ rest) = nextRunes 0 rest := by
  induction pre with
  | nil => rfl
  | cons b bs ih => exact ih

theorem runesFrom_encodeRune (c : Char) (rest : Bytes) :
    runesFrom 0 (encodeRune c ++ rest) = c :: runesFrom 0 rest := by
  have hd := decodeRune_encodeRune c rest
  cases he : encodeRune c with
  | nil => exact absurd he (encodeRune_ne_nil c)
  | cons b tl =>
    rw [he] at hd
    show (decodeRune (b :: (tl ++ rest))).1 ::
      runesFrom ((decodeRune (b :: (tl ++ rest))).2 - 1) (tl ++ rest) = _
    rw [show b :: (tl ++ rest) = (b :: tl) ++ rest from rfl, hd]
    simp only [List.length_cons, Nat.add_sub_cancel]
    rw [runesFrom_skip]

theorem nextRunes_encodeRune (c : Char) (rest : Bytes) :
    nextRunes 0 (encodeRune c ++ rest) =
      match nextRunes 0 rest with
      | none => none
      | some rs => some (c :: rs) := by
  have hd := decodeRune_encodeRune c rest
  have hne := encodeRune_not_error c
  cases he : encodeRune c with
  | nil => exact absurd he (encodeRune_ne_nil c)
  | cons b tl =>
    rw [he] at hd hne
    show (if (decodeRune (b :: (tl ++ rest))).1 = RuneError ∧
        (decodeRune (b :: (tl ++ rest))).2 = 1 then none
      else
        match nextRunes ((decodeRune (b :: (tl ++ rest))).2 - 1) (tl ++ rest) with
        | none => none
        | some rs => some ((decodeRune (b :: (tl ++ rest))).1 :: rs)) = _
    rw [show b :: (tl ++ rest) = (b :: tl) ++ rest from rfl, hd]
    simp only []
    rw [if_neg hne]
    simp only [List.length_cons, Nat.add_sub_cancel]
    rw [nextRunes_skip]

theorem utf8_cons (c : Char) (cs : Str) : utf8 (c :: cs) = encodeRune c ++ utf8 cs := by
  simp [utf8]

theorem utf8_append (a b : Str) : utf8 (a ++ b) = utf8 a ++ utf8 b := by
  simp [utf8]

theorem Runes_utf8_append (cs : Str) (rest : Bytes) :
    Runes (utf8 cs ++ rest) = cs ++ Runes rest := by
  unfold Runes
  induction cs with
  | nil => rfl
  | cons c cs ih =>
    rw [utf8_cons, List.append_assoc, runesFrom_encodeRune, ih]
    rfl

theorem Runes_utf8 (cs : Str) : Runes (utf8 cs) = cs := by
  have := Runes_utf8_append cs []
  simpa [Runes, runesFrom] using this

theorem nextRunes_utf8 (cs : Str) : nextRunes 0 (utf8 cs) = some cs := by
  induction cs with
  | nil => rfl
  | cons c cs ih => rw [utf8_cons, nextRunes_encodeRune, ih]

theorem utf8_injective (a b : Str) (h : utf8 a = utf8 b) : a = b := by
  rw [← Runes_utf8 a, ← Runes_utf8 b, h]

/-! ## Facts about the parser and the matcher on patterns -/

theorem isRegexSpecial_iff (c : Char) :
    isRegexSpecial c = true ↔
      c = '\\' ∨ c = '.' ∨ c = '+' ∨ c = '*' ∨ c = '?' ∨ c = '(' ∨ c = ')' ∨ c = '|' ∨
        c = '[' ∨ c = ']' ∨ c = '{' ∨ c = '}' ∨ c = '^' ∨ c = '$' := by
  have hl : "\\.+*?()|[]{}^$".toList =
      ['\\', '.', '+', '*', '?', '(', ')', '|', '[', ']', '{', '}', '^', '$'] := by decide
  unfold isRegexSpecial
  rw [hl]
  simp only [List.elem_eq_mem, decide_eq_true_eq, List.mem_cons, List.mem_singleton,
    List.mem_nil_iff, or_false]

theorem special_escape (c : Char) (h : isRegexSpecial c = true) :
    c ≠ 'd' ∧ (c.toNat < 0x80 && !isAlnum c) = true := by
  rcases (isRegexSpecial_iff c).1 h with h | h | h | h | h | h | h | h | h | h | h | h | h | h <;>
    subst h <;> decide

theorem not_special_plain (c : Char) (h : isRegexSpecial c = false) :
    c ≠ '\\' ∧ c ≠ '^' ∧ c ≠ '$' ∧ c ≠ '.' ∧ ¬ (c = '*' ∨ c = '+' ∨ c = '?') ∧
      "()|[]{}".toList.elem c = false := by
  have hn : ¬ isRegexSpecial c = true := by
    rw [h]
    exact Bool.false_ne_true
  rw [isRegexSpecial_iff] at hn
  have hl : "()|[]{}".toList = ['(', ')', '|', '[', ']', '{', '}'] := by decide
  rw [hl]
  simp only [not_or] at hn
  obtain ⟨h1, h2, h3, h4, h5, h6, h7, h8, h9, h10, h11, h12, h13, h14⟩ := hn
  refine ⟨h1, h13, h14, h2, ?_, ?_⟩
  · rintro (h | h | h)
    · exact h4 h
    · exact h3 h
    · exact h5 h
  · rw [List.elem_eq_mem, decide_eq_false_iff_not]
    simp only [List.mem_cons, List.mem_singleton, List.mem_nil_iff, or_false, not_or]
    exact ⟨h6, h7, h8, h9, h10, h11, h12⟩

theorem parseFrom_cons (stk : List Inst) (esc : Bool) (c : Char) (rest : Str) :
    parseFrom stk esc (c :: rest) =
      if esc then
        if c = 'd' then parseFrom (.one .digit :: stk) false rest
        else if c.toNat < 0x80 && !isAlnum c then parseFrom (.one (.lit c) :: stk) false rest
        else .notModelled
      else if c = '\\' then parseFrom stk true rest
      else if c = '^' then parseFrom (.beginText :: stk) false rest
      else if c = '$' then parseFrom (.endText :: stk) false rest
      else if c = '.' then parseFrom (.one .anyNotNL :: stk) false rest
      else if c = '*' ∨ c = '+' ∨ c = '?' then
        match stk with
        | [] => .syntaxError
        | .one k :: stk' => parseFrom (repeatOp c k :: stk') false rest
        | .beginText :: _ => .notModelled
        | .endText :: _ => .notModelled
        | _ :: _ => if c = '?' then .notModelled else .syntaxError
      else if "()|[]{}".toList.elem c then .notModelled
      else parseFrom (.one (.lit c) :: stk) false rest := rfl

theorem matchHere_star (k : CharClass) (is : List Inst) (st : Bool) (s : Str) :
    matchHere (.star k :: is) st s = matchStar k (matchHere is) st s := rfl

theorem globText_cons (c : Char) (cs : Str) :
    globText (c :: cs) =
      (if c = '*' then ['.', '*'] else if isRegexSpecial c then ['\\', c] else [c]) ++
        globText cs := by
  simp [globText]

theorem parseFrom_globText (p rest : Str) (stk : List Inst) :
    parseFrom stk false (globText p ++ rest) =
      parseFrom ((globProg p).reverse ++ stk) false rest := by
  induction p generalizing stk with
  | nil => simp [globText, globProg]
  | cons c cs ih =>
    rw [globText_cons]
    have hprog : (globProg (c :: cs)).reverse ++ stk =
        (globProg cs).reverse ++
          ((if c = '*' then Inst.star .anyNotNL else Inst.one (.lit c)) :: stk) := by
      simp [globProg]
    rw [hprog]
    by_cases hstar : c = '*'
    · subst hstar
      simp only [if_true, List.cons_append, List.nil_append]
      rw [parseFrom_cons]
      simp only [Bool.false_eq_true, if_false, Char.reduceEq, if_true]
      rw [parseFrom_cons]
      simp only [Bool.false_eq_true, if_false, Char.reduceEq, if_true, true_or, repeatOp]
      exact ih _
    · by_cases hs : isRegexSpecial c = true
      · obtain ⟨h1, h2⟩ := special_escape c hs
        simp only [hs, hstar, if_true, if_false, List.cons_append, List.nil_append]
        rw [parseFrom_cons]
        simp only [Bool.false_eq_true, if_false, if_true]
        rw [parseFrom_cons]
        simp only [if_true, h1, if_false, h2]
        exact ih _
      · have hs' : isRegexSpecial c = false := by simpa using hs
        obtain ⟨h1, h2, h3, h4, h5, h6⟩ := not_special_plain c hs'
        simp only [hs', hstar, if_false, List.cons_append, List.nil_append, Bool.false_eq_true]
        rw [parseFrom_cons]
        simp only [Bool.false_eq_true, if_false, h1, h2, h3, h4, h5, h6]
        exact ih _

theorem matchHere_lits_iff (p : Str) (rest : List Inst) (st : Bool) (s : Str) :
    matchHere (p.map (fun c => Inst.one (.lit c)) ++ rest) st s = true ↔
      ∃ post, s = p ++ post ∧ matchHere rest (if p = [] then st else false) post = true := by
  induction p generalizing st s with
  | nil => simp
  | cons c cs ih =>
    simp only [List.map_cons, List.cons_append, matchHere_lit_iff, ih]
    constructor
    · rintro ⟨post, rfl, post', rfl, h⟩
      refine ⟨post', rfl, ?_⟩
      have : (if cs = [] then false else false) = false := by split <;> rfl
      rw [this] at h
      simpa using h
    · rintro ⟨post, rfl, h⟩
      refine ⟨cs ++ post, rfl, post, rfl, ?_⟩
      have : (if cs = [] then false else false) = false := by split <;> rfl
      rw [this]
      simpa using h

theorem globProg_no_star (p : Str) (h : '*' ∉ p) :
    globProg p = p.map (fun c => Inst.one (.lit c)) := by
  unfold globProg
  apply List.map_congr_left
  intro c hc
  have : c ≠ '*' := fun e => h (e ▸ hc)
  simp [this]

theorem parseRegexp_globText (ps : Str) :
    parseRegexp ('^' :: (globText ps ++ ['$'])) =
      .prog (.beginText :: (globProg ps ++ [.endText])) := by
  unfold parseRegexp
  rw [parseFrom_cons]
  simp only [Bool.false_eq_true, if_false, Char.reduceEq, if_true]
  rw [parseFrom_globText, parseFrom_cons]
  simp only [Bool.false_eq_true, if_false, Char.reduceEq, if_true]
  simp [parseFrom]

/-! ## The expression that `MatchPattern` builds -/

theorem specialBytes_eq :
    specialBytes = [92, 46, 43, 42, 63, 40, 41, 124, 91, 93, 123, 125, 94, 36] := by
  decide

theorem specialBytes_elem_iff (b : Nat) :
    specialBytes.elem b = true ↔
      b = 92 ∨ b = 46 ∨ b = 43 ∨ b = 42 ∨ b = 63 ∨ b = 40 ∨ b = 41 ∨ b = 124 ∨ b = 91 ∨
        b = 93 ∨ b = 123 ∨ b = 125 ∨ b = 94 ∨ b = 36 := by
  rw [specialBytes_eq]
  simp only [List.elem_eq_mem, decide_eq_true_eq, List.mem_cons, List.mem_singleton,
    List.mem_nil_iff, or_false]

theorem specialBytes_elem_toNat (c : Char) :
    specialBytes.elem c.toNat = isRegexSpecial c := by
  rw [Bool.eq_iff_iff, specialBytes_elem_iff, isRegexSpecial_iff]
  constructor
  · intro h
    rcases h with h | h | h | h | h | h | h | h | h | h | h | h | h | h <;>
      (have hc := ofNat_eq_of_toNat c _ h; subst hc; decide)
  · intro h
    rcases h with h | h | h | h | h | h | h | h | h | h | h | h | h | h <;>
      (subst h; decide)

theorem specialBytes_elem_high (b : Nat) (h : 0x80 ≤ b) : specialBytes.elem b = false := by
  rw [Bool.eq_false_iff]
  intro hb
  rw [specialBytes_elem_iff] at hb
  omega

theorem isRegexSpecial_ascii (c : Char) (h : isRegexSpecial c = true) : c.toNat < 0x80 := by
  have := (special_escape c h).2
  simp only [Bool.and_eq_true, decide_eq_true_eq] at this
  exact this.1

theorem QuoteMeta_append (a b : Bytes) : QuoteMeta (a ++ b) = QuoteMeta a ++ QuoteMeta b := by
  simp [QuoteMeta]

theorem QuoteMeta_plain (m : Bytes) (h : ∀ b ∈ m, specialBytes.elem b = false) :
    QuoteMeta m = m := by
  induction m with
  | nil => rfl
  | cons b bs ih =>
    have hb := h b (by simp)
    have hbs := ih (fun x hx => h x (by simp [hx]))
    unfold QuoteMeta at hbs ⊢
    simp only [List.flatMap_cons, hb, Bool.false_eq_true, if_false, hbs]
    rfl

theorem encodeRune_plain (c : Char) (h : isRegexSpecial c = false) :
    ∀ b ∈ encodeRune c, specialBytes.elem b = false := by
  rcases encodeRune_cases c with ⟨_, he⟩ | ⟨_, hb⟩
  · intro b hm
    rw [he, List.mem_singleton] at hm
    rw [hm, specialBytes_elem_toNat, h]
  · exact fun b hm => specialBytes_elem_high b (hb b hm)

theorem QuoteMeta_encodeRune (c : Char) :
    QuoteMeta (encodeRune c) = if isRegexSpecial c then [0x5C, c.toNat] else encodeRune c := by
  by_cases hs : isRegexSpecial c = true
  · have hascii := isRegexSpecial_ascii c hs
    rcases encodeRune_cases c with ⟨_, he⟩ | ⟨hge, _⟩
    · have hel : specialBytes.elem c.toNat = true := by
        rw [specialBytes_elem_toNat, hs]
      rw [he, if_pos hs]
      simp only [QuoteMeta, List.flatMap_cons, List.flatMap_nil, hel, if_true, List.append_nil]
    · omega
  · have hs' : isRegexSpecial c = false := by simpa using hs
    rw [if_neg hs, QuoteMeta_plain _ (encodeRune_plain c hs')]

theorem QuoteMeta_utf8_cons (c : Char) (cs : Str) :
    QuoteMeta (utf8 (c :: cs)) =
      (if isRegexSpecial c then [0x5C, c.toNat] else encodeRune c) ++ QuoteMeta (utf8 cs) := by
  rw [utf8_cons, QuoteMeta_append, QuoteMeta_encodeRune]

theorem encodeRune_not_escape (c : Char) (h : isRegexSpecial c = false) :
    ∀ b ∈ encodeRune c, b ≠ 0x5C ∧ b ≠ 0x2A := by
  intro b hm
  have hb := encodeRune_plain c h b hm
  constructor
  · rintro rfl
    revert hb
    decide
  · rintro rfl
    revert hb
    decide

theorem replaceFrom_zero_cons (old new : Bytes) (c : Nat) (cs : Bytes) :
    replaceFrom old new 0 (c :: cs) =
      if old.isPrefixOf (c :: cs) then new ++ replaceFrom old new (old.length - 1) cs
      else c :: replaceFrom old new 0 cs := rfl

theorem replaceFrom_succ_cons (old new : Bytes) (skip : Nat) (c : Nat) (cs : Bytes) :
    replaceFrom old new (skip + 1) (c :: cs) = replaceFrom old new skip cs := rfl

theorem isPrefixOf_escapedStar (c : Nat) (rest : Bytes) :
    List.isPrefixOf [0x5C, 0x2A] (c :: rest) = true ↔ c = 0x5C ∧ rest.head? = some 0x2A := by
  cases rest with
  | nil => simp [List.isPrefixOf]
  | cons d ds =>
    simp only [List.isPrefixOf, Bool.and_eq_true, beq_iff_eq, Bool.and_true, List.head?_cons,
      Option.some.injEq]
    constructor
    · rintro ⟨h1, h2⟩
      exact ⟨h1.symm, h2.symm⟩
    · rintro ⟨h1, h2⟩
      exact ⟨h1.symm, h2.symm⟩

theorem replaceFrom_plain (m rest : Bytes) (h : ∀ b ∈ m, b ≠ 0x5C) :
    replaceFrom [0x5C, 0x2A] [0x2E, 0x2A] 0 (m ++ rest) =
      m ++ replaceFrom [0x5C, 0x2A] [0x2E, 0x2A] 0 rest := by
  induction m with
  | nil => rfl
  | cons b bs ih =>
    have hb : ¬ (List.isPrefixOf [0x5C, 0x2A] (b :: (bs ++ rest)) = true) := by
      rw [isPrefixOf_escapedStar]
      exact fun hp => h b (by simp) hp.1
    rw [List.cons_append, replaceFrom_zero_cons, if_neg hb,
      ih (fun x hx => h x (by simp [hx]))]
    rfl

theorem quoted_head (cs : Str) (tail : Bytes) (ht : tail.head? ≠ some 0x2A) :
    (QuoteMeta (utf8 cs) ++ tail).head? ≠ some 0x2A := by
  cases cs with
  | nil => simpa [utf8, QuoteMeta] using ht
  | cons c cs =>
    rw [QuoteMeta_utf8_cons]
    by_cases hs : isRegexSpecial c = true
    · simp [hs]
    · have hs' : isRegexSpecial c = false := by simpa using hs
      rw [if_neg hs]
      cases he : encodeRune c with
      | nil => exact absurd he (encodeRune_ne_nil c)
      | cons b tl =>
        have hb := (encodeRune_not_escape c hs' b (by simp [he])).2
        simpa using hb

theorem replaceFrom_quoted (cs : Str) (tail : Bytes) (ht : tail.head? ≠ some 0x2A) :
    replaceFrom [0x5C, 0x2A] [0x2E, 0x2A] 0 (QuoteMeta (utf8 cs) ++ tail) =
      utf8 (globText cs) ++ replaceFrom [0x5C, 0x2A] [0x2E, 0x2A] 0 tail := by
  induction cs with
  | nil => simp [utf8, QuoteMeta, globText]
  | cons c cs ih =>
    have hhead := quoted_head cs tail ht
    rw [QuoteMeta_utf8_cons, globText_cons, utf8_append, List.append_assoc, List.append_assoc]
    by_cases hstar : c = '*'
    · subst hstar
      have hs : isRegexSpecial '*' = true := by decide
      have hu : utf8 ['.', '*'] = [0x2E, 0x2A] := by decide
      have ht42 : '*'.toNat = 0x2A := by decide
      simp only [hs, if_true, hu, ht42, List.cons_append, List.nil_append]
      rw [replaceFrom_zero_cons, if_pos (by simp [List.isPrefixOf])]
      show [0x2E, 0x2A] ++ replaceFrom [0x5C, 0x2A] [0x2E, 0x2A] 1
        (0x2A :: (QuoteMeta (utf8 cs) ++ tail)) = _
      rw [replaceFrom_succ_cons, ih]
      rfl
    · by_cases hs : isRegexSpecial c = true
      · have hascii := isRegexSpecial_ascii c hs
        have hu : utf8 ['\\', c] = [0x5C, c.toNat] := by
          rcases encodeRune_cases c with ⟨_, he⟩ | ⟨hge, _⟩
          · simp only [utf8, List.flatMap_cons, List.flatMap_nil, he, List.append_nil]
            rfl
          · omega
        have hne : c.toNat ≠ 0x2A := by
          intro h42
          exact hstar (ofNat_eq_of_toNat c _ h42)
        simp only [hs, hstar, if_true, if_false, hu, List.cons_append, List.nil_append]
        have h1 : ¬ (List.isPrefixOf [0x5C, 0x2A]
            (0x5C :: c.toNat :: (QuoteMeta (utf8 cs) ++ tail)) = true) := by
          rw [isPrefixOf_escapedStar]
          simp [hne]
        have h2 : ¬ (List.isPrefixOf [0x5C, 0x2A]
            (c.toNat :: (QuoteMeta (utf8 cs) ++ tail)) = true) := by
          rw [isPrefixOf_escapedStar]
          exact fun h => hhead h.2
        rw [replaceFrom_zero_cons, if_neg h1, replaceFrom_zero_cons, if_neg h2, ih]
      · have hs' : isRegexSpecial c = false := by simpa using hs
        have hu : utf8 [c] = encodeRune c := by simp [utf8]
        simp only [hs', hstar, if_false, hu, Bool.false_eq_true]
        rw [replaceFrom_plain _ _ (fun b hb => (encodeRune_not_escape c hs' b hb).1), ih]

theorem regexPattern_utf8 (ps : Str) :
    regexPattern (utf8 ps) = utf8 ('^' :: (globText ps ++ ['$'])) := by
  have e1 : utf8 "^".toList = [0x5E] := by decide
  have e2 : utf8 "$".toList = [0x24] := by decide
  have e3 : utf8 "\\*".toList = [0x5C, 0x2A] := by decide
  have e4 : utf8 ".*".toList = [0x2E, 0x2A] := by decide
  have e5 : encodeRune '^' = [0x5E] := by decide
  have e6 : utf8 ['$'] = [0x24] := by decide
  unfold regexPattern ReplaceAll
  rw [e1, e2, e3, e4, List.append_assoc, replaceFrom_plain [0x5E] _ (by decide),
    replaceFrom_quoted _ _ (by decide), utf8_cons, utf8_append, e5, e6]
  rfl

theorem Compile_regexPattern (lim : RegexpLimits) (ps : Str)
    (hlim : lim.tooLarge (utf8 ('^' :: (globText ps ++ ['$']))) = false) :
    Compile lim (regexPattern (utf8 ps)) =
      .prog (.beginText :: (globProg ps ++ [.endText])) := by
  unfold Compile
  rw [regexPattern_utf8, hlim, nextRunes_utf8]
  simp only [Bool.false_eq_true, if_false]
  exact parseRegexp_globText ps

theorem MatchPattern_eq (lim : RegexpLimits) (name : Bytes) (ps : Str)
    (hlim : lim.tooLarge (utf8 ('^' :: (globText ps ++ ['$']))) = false) :
    MatchPattern lim name (utf8 ps) =
      MatchString (.beginText :: (globProg ps ++ [.endText])) (Runes name) := by
  unfold MatchPattern
  rw [Compile_regexPattern lim ps hlim]

theorem ofNat_eq_newline (v : Nat) (h : Char.ofNat v = '\n') : v = 10 := by
  by_cases hv : v < 0xD800 ∨ (0xDFFF < v ∧ v < 0x110000)
  · have := toNat_ofNat_valid v hv
    rw [h] at this
    exact this.symm
  · have hv' : ¬ v.isValidChar := hv
    rw [Char.ofNat, dif_neg hv'] at h
    exact absurd h (by decide)

theorem decodeRune_newline (b : Nat) (bs : Bytes) (h : (decodeRune (b :: bs)).1 = '\n') :
    b = 0x0A := by
  have herr : RuneError ≠ '\n' := by decide
  by_cases h1 : b < 0x80
  · simp only [decodeRune, h1, if_true] at h
    exact ofNat_eq_newline b h
  · by_cases h2 : 0xC2 ≤ b ∧ b ≤ 0xDF
    · cases bs with
      | nil =>
        simp only [decodeRune, h1, h2, if_true, if_false, and_self, and_true, true_and] at h
        exact absurd h herr
      | cons b1 tl =>
        by_cases h5 : 0x80 ≤ b1 ∧ b1 ≤ 0xBF
        · simp only [decodeRune, h1, h2, h5, if_true, if_false, and_self, and_true, true_and] at h
          have := ofNat_eq_newline _ h
          omega
        · simp only [decodeRune, h1, h2, h5, if_true, if_false, and_self, and_true, true_and] at h
          exact absurd h herr
    · by_cases h3 : 0xE0 ≤ b ∧ b ≤ 0xEF
      · cases bs with
        | nil =>
          simp only [decodeRune, h1, h2, h3, if_true, if_false, and_self, and_true, true_and] at h
          exact absurd h herr
        | cons b1 tl =>
          cases tl with
          | nil =>
            simp only [decodeRune, h1, h2, h3, if_true, if_false, and_self, and_true, true_and] at h
            exact absurd h herr
          | cons b2 tl2 =>
            by_cases h5 : (if b = 0xE0 then 0xA0 else 0x80) ≤ b1 ∧
                b1 ≤ (if b = 0xED then 0x9F else 0xBF) ∧ 0x80 ≤ b2 ∧ b2 ≤ 0xBF
            · simp only [decodeRune, h1, h2, h3, h5, if_true, if_false, and_self, and_true, true_and] at h
              have := ofNat_eq_newline _ h
              have h6 := h5.1
              split_ifs at h6 <;> omega
            · simp only [decodeRune, h1, h2, h3, h5, if_true, if_false, and_self, and_true, true_and] at h
              exact absurd h herr
      · by_cases h4 : 0xF0 ≤ b ∧ b ≤ 0xF4
        · cases bs with
          | nil =>
            simp only [decodeRune, h1, h2, h3, h4, if_true, if_false, and_self, and_true, true_and] at h
            exact absurd h herr
          | cons b1 tl =>
            cases tl with
            | nil =>
              simp only [decodeRune, h1, h2, h3, h4, if_true, if_false, and_self, and_true, true_and] at h
              exact absurd h herr
            | cons b2 tl2 =>
              cases tl2 with
              | nil =>
                simp only [decodeRune, h1, h2, h3, h4, if_true, if_false, and_self, and_true, true_and] at h
                exact absurd h herr
              | cons b3 tl3 =>
                by_cases h5 : (if b = 0xF0 then 0x90 else 0x80) ≤ b1 ∧
                    b1 ≤ (if b = 0xF4 then 0x8F else 0xBF) ∧ 0x80 ≤ b2 ∧ b2 ≤ 0xBF ∧
                    0x80 ≤ b3 ∧ b3 ≤ 0xBF
                · simp only [decodeRune, h1, h2, h3, h4, h5, if_true, if_false, and_self, and_true, true_and] at h
                  have := ofNat_eq_newline _ h
                  have h6 := h5.1
                  split_ifs at h6 <;> omega
                · simp only [decodeRune, h1, h2, h3, h4, h5, if_true, if_false, and_self, and_true, true_and] at h
                  exact absurd h herr
        · simp only [decodeRune, h1, h2, h3, h4, if_false] at h
          exact absurd h herr

theorem runesFrom_no_newline (sb : Bytes) (h : 0x0A ∉ sb) (k : Nat) :
    '\n' ∉ runesFrom k sb := by
  induction sb generalizing k with
  | nil => cases k <;> simp [runesFrom]
  | cons b bs ih =>
    have hb : b ≠ 0x0A := fun e => h (by simp [e])
    have hbs : 0x0A ∉ bs := fun e => h (by simp [e])
    cases k with
    | succ k => exact ih hbs k
    | zero =>
      show '\n' ∉ (decodeRune (b :: bs)).1 :: runesFrom ((decodeRune (b :: bs)).2 - 1) bs
      simp only [List.mem_cons, not_or]
      exact ⟨fun e => hb (decodeRune_newline b bs e.symm), ih hbs _⟩

/-! ## `MatchPattern` -/

/-- C8 (as amended): for a pattern that is valid UTF-8 (the encoding of the code points
`ps`), contains no `*`, and whose expression (`^`, the quoted pattern, `$`) the compiler
does not reject as too large, `MatchPattern` is true if and only if the code points read
from the name (an invalid byte reading as U+FFFD) are those of the pattern; so for a name
that is valid UTF-8 it is true if and only if the name equals the pattern: every
character of the pattern, regex metacharacters included, is matched literally and the
match is anchored at both ends. -/
theorem MatchPattern_literal (lim : RegexpLimits) (name : Bytes) (ps : Str) (h : '*' ∉ ps)
    (hlim : lim.tooLarge (utf8 ('^' :: (globText ps ++ ['$']))) = false) :
    (MatchPattern lim name (utf8 ps) = true ↔ Runes name = ps) ∧
      (∀ ns : Str, name = utf8 ns →
        (MatchPattern lim name (utf8 ps) = true ↔ name = utf8 ps)) := by
  have hiff : MatchPattern lim name (utf8 ps) = true ↔ Runes name = ps := by
    rw [MatchPattern_eq lim name ps hlim, MatchString_beginText, globProg_no_star ps h,
      matchHere_lits_iff]
    simp only [matchHere_endText_iff]
    constructor
    · rintro ⟨post, hn, rfl⟩
      simpa using hn
    · intro hn
      exact ⟨[], by simpa using hn, rfl⟩
  refine ⟨hiff, ?_⟩
  rintro ns rfl
  rw [hiff, Runes_utf8]
  constructor
  · rintro rfl
    rfl
  · intro he
    exact utf8_injective ns ps he

/-- Witness for C8: the pattern `a.b(c)` matches the name `a.b(c)` and not `axb(c)`. -/
theorem MatchPattern_literal_witness :
    MatchPattern (lengthLimit 1000) (utf8 "a.b(c)".toList) (utf8 "a.b(c)".toList) = true ∧
      ¬ (MatchPattern (lengthLimit 1000) (utf8 "axb(c)".toList) (utf8 "a.b(c)".toList) = true) :=
  ⟨((MatchPattern_literal (lengthLimit 1000) (utf8 "a.b(c)".toList) "a.b(c)".toList
      (by decide) (by decide)).2 "a.b(c)".toList rfl).2 rfl,
    fun hm => absurd (((MatchPattern_literal (lengthLimit 1000) (utf8 "axb(c)".toList)
      "a.b(c)".toList (by decide) (by decide)).2 "axb(c)".toList rfl).1 hm) (by decide)⟩

/-- Counterexample for C8 as stated: the pattern that is the single byte `0xFF` holds no
`*` and equals the name, but its expression does not compile (invalid UTF-8), so
`MatchPattern` is false; and the valid pattern U+FFFD matches the name `0xFF`, which is a
different string. -/
theorem MatchPattern_invalid_utf8 :
    (0x2A ∉ ([0xFF] : Bytes)) ∧
      Compile noLimit (regexPattern [0xFF]) = .invalidUTF8 ∧
      MatchPattern noLimit [0xFF] [0xFF] = false ∧
      MatchPattern noLimit [0xFF] (utf8 [RuneError]) = true ∧
      ([0xFF] : Bytes) ≠ utf8 [RuneError] := by
  refine ⟨by decide, by decide, by decide, by decide, by decide⟩

/-- C7 (as amended): for a string `p` that is valid UTF-8 (the encoding of the code
points `ps`) and contains no `*`, such that the compiler does not reject the expression
built from `p*` as too large, the pattern `p*` matches exactly the names whose code
points are those of `p` followed by any sequence of code points other than the newline;
so `MatchPattern(p ++ s, p ++ "*")` is true for every string `s` that holds no newline. -/
theorem MatchPattern_trailing_star (lim : RegexpLimits) (ps : Str) (h : '*' ∉ ps)
    (hlim : lim.tooLarge (utf8 ('^' :: (globText (ps ++ ['*']) ++ ['$']))) = false)
    (name : Bytes) :
    (MatchPattern lim name (utf8 ps ++ [0x2A]) = true ↔
        ∃ s, Runes name = ps ++ s ∧ '\n' ∉ s) ∧
      (∀ sb : Bytes, 0x0A ∉ sb →
        MatchPattern lim (utf8 ps ++ sb) (utf8 ps ++ [0x2A]) = true) := by
  have hpat : utf8 ps ++ [0x2A] = utf8 (ps ++ ['*']) := by
    rw [utf8_append]
    rfl
  have hprog : globProg (ps ++ ['*']) ++ [Inst.endText] =
      ps.map (fun c => Inst.one (.lit c)) ++ [Inst.star .anyNotNL, Inst.endText] := by
    have : globProg (ps ++ ['*']) = globProg ps ++ [Inst.star .anyNotNL] := by
      simp [globProg]
    rw [this, globProg_no_star ps h]
    simp
  have hiff : ∀ n : Bytes, MatchPattern lim n (utf8 ps ++ [0x2A]) = true ↔
      ∃ s, Runes n = ps ++ s ∧ '\n' ∉ s := by
    intro n
    rw [hpat, MatchPattern_eq lim n (ps ++ ['*']) hlim, MatchString_beginText, hprog,
      matchHere_lits_iff]
    simp only [matchHere_star, matchStar_iff, matchHere_endText_iff, CharClass.accepts]
    constructor
    · rintro ⟨post, hn, pre, post', hpost, hall, hend⟩
      refine ⟨post, hn, ?_⟩
      rw [hpost, hend, List.append_nil]
      intro hmem
      have := hall _ hmem
      simp at this
    · rintro ⟨s, hn, hs⟩
      refine ⟨s, hn, s, [], by simp, ?_, rfl⟩
      intro c hc
      have : c ≠ '\n' := fun e => hs (e ▸ hc)
      simp [this]
  refine ⟨hiff name, ?_⟩
  intro sb hsb
  rw [hiff]
  exact ⟨Runes sb, Runes_utf8_append ps sb, runesFrom_no_newline sb hsb 0⟩

/-- Witness for C7: `foo-bar` matches `foo-*` and `anything` matches `*`, while `foobar`
does not match `foo-*`. -/
theorem MatchPattern_trailing_star_witness :
    MatchPattern (lengthLimit 1000) (utf8 "foo-".toList ++ utf8 "bar".toList)
        (utf8 "foo-".toList ++ [0x2A]) = true ∧
      MatchPattern (lengthLimit 1000) (utf8 [] ++ utf8 "anything".toList)
        (utf8 [] ++ [0x2A]) = true ∧
      MatchPattern (lengthLimit 1000) (utf8 "foobar".toList) (utf8 "foo-*".toList) = false :=
  ⟨(MatchPattern_trailing_star (lengthLimit 1000) "foo-".toList (by decide) (by decide)
      (utf8 "foo-bar".toList)).2 (utf8 "bar".toList) (by decide),
    (MatchPattern_trailing_star (lengthLimit 1000) [] (by decide) (by decide)
      (utf8 "anything".toList)).2 (utf8 "anything".toList) (by decide),
    by decide⟩

/-- Counterexample for C7 as stated: a `*` does not match a newline, so the name `foo-`
followed by a newline and `bar` does not match `foo-*`, and the name that is a single
newline does not match `*`; and with `p` the single byte `0xFF`, which holds no `*`, the
expression of `p*` does not compile, so the name `p` does not match it. -/
theorem MatchPattern_star_newline :
    MatchPattern noLimit (utf8 "foo-".toList ++ utf8 "\nbar".toList)
        (utf8 "foo-".toList ++ [0x2A]) = false ∧
      MatchPattern noLimit (utf8 "\n".toList) [0x2A] = false ∧
      MatchPattern noLimit ([0xFF] ++ []) ([0xFF] ++ [0x2A]) = false := by
  refine ⟨by decide, by decide, by decide⟩

end Gaspeek
